import Mathlib

/-!
Verification development for the TechTorch Document Formatter
(`src/app/page.tsx`).  The file shallowly embeds the content
classification pipeline: the signal analyzers
(`analyzeHeaderProbability`, `analyzeCodeProbability`,
`analyzeBulletProbability`, `getHeadingLevel`, the list-intro
detector), the stateful segmentation scan of `extractContent`,
and the corrective pass `postProcessContent`.

Strings are modelled as Lean `String` / `List Char`; scores are `Int`
(they can be negative, see the theorems below).  The JavaScript regular
expressions of the source are translated pattern by pattern into
deterministic character-list matchers with the same semantics on the
inputs at hand (JS `\w`, `\d`, `[A-Z]` are ASCII classes; `\s` is
modelled by the common whitespace characters plus NBSP; `trim`,
`toLowerCase`, `toUpperCase` are modelled on ASCII, which agrees with
JS on every string appearing in the source's tables and in the
theorems below).  JS string `length` (UTF-16 units) is modelled as the
character count, which agrees on all BMP text.
-/

namespace TechTorch

/-! ### Character classes (JS regex semantics, ASCII) -/

/-- JS `\s` (whitespace) restricted to the characters that can occur here. -/
def wsChar (c : Char) : Bool :=
  c = ' ' || c = '\t' || c = '\n' || c = '\r' || c = '\x0b' || c = '\x0c' || c = '\u00A0'

/-- JS `\w` word character: `[A-Za-z0-9_]`. -/
def wordChar (c : Char) : Bool := c.isAlphanum || c = '_'

/-- ASCII lower-casing (JS `toLowerCase` on the ASCII strings involved). -/
def lowChar (c : Char) : Char := c.toLower

/-- ASCII upper-casing (JS `toUpperCase` on the ASCII strings involved). -/
def upChar (c : Char) : Char := c.toUpper

/-! ### List-of-characters utilities -/

/-- JS `String.prototype.trim`. -/
def jsTrim (s : String) : String :=
  String.mk (((s.data.dropWhile wsChar).reverse.dropWhile wsChar).reverse)

/-- Consume a literal from the front of a character list. -/
def takeLit : List Char → List Char → Option (List Char)
  | [], s => some s
  | _, [] => none
  | a :: la, c :: s => if c = a then takeLit la s else none

/-- Case-insensitive variant; the literal is given in lower case. -/
def takeLitCI : List Char → List Char → Option (List Char)
  | [], s => some s
  | _, [] => none
  | a :: la, c :: s => if lowChar c = a then takeLitCI la s else none

/-- Does the list start with the literal? -/
def startsLit (lit s : List Char) : Bool := (takeLit lit s).isSome

/-- First character satisfies the predicate. -/
def headIs (p : Char → Bool) : List Char → Bool
  | [] => false
  | c :: _ => p c

/-- Drop a (possibly empty) run of JS whitespace. -/
def dropWs (s : List Char) : List Char := s.dropWhile wsChar

/-- Last character of the list is `c` (JS `endsWith` for a single char). -/
def lastIs (s : List Char) (c : Char) : Bool := s.getLast? = some c

/-- Substring containment (JS `includes`). -/
def containsLit : List Char → List Char → Bool
  | lit, [] => startsLit lit []
  | lit, c :: s => startsLit lit (c :: s) || containsLit lit s

/-- Scan every suffix together with the character just before it;
used for unanchored regex tests that involve `\b`. -/
def scanP (f : Option Char → List Char → Bool) : Option Char → List Char → Bool
  | prev, [] => f prev []
  | prev, c :: s => f prev (c :: s) || scanP f (some c) s

/-- Unanchored regex `test`: does the pattern match starting somewhere? -/
def testSomewhere (f : Option Char → List Char → Bool) (t : List Char) : Bool :=
  scanP f none t

/-- No word character right before the position: `\b` before a word char. -/
def noWordBefore : Option Char → Bool
  | none => true
  | some c => !(wordChar c)

/-- A word character right before the position (`\b` in front of `.`). -/
def wordBefore : Option Char → Bool
  | none => false
  | some c => wordChar c

/-- `\b` right after a literal that ends in a word character:
the next character must be absent or not a word character. -/
def noWordHead : List Char → Bool
  | [] => true
  | c :: _ => !(wordChar c)

/-- Digits of a decimal literal to a number (JS `parseInt` on `\d+`). -/
def digitsToNat (ds : List Char) : Nat :=
  ds.foldl (fun n c => n * 10 + (c.toNat - 48)) 0

/-! ### The `CODE_PATTERNS` battery (`src/app/page.tsx` lines 102-122)

Each JS regex is translated into a decidable matcher with the same
`test` semantics.  Alternation/backtracking is resolved by hand: at
every juncture the character classes on the two sides are disjoint, so
maximal-run matching is equivalent (noted per pattern where relevant). -/

/-- After a keyword: `\s*` then the single character `c`. -/
def wsThen (c : Char) (s : List Char) : Bool := headIs (· = c) (dropWs s)

/-- After a keyword: one mandatory whitespace (`\s+` ≡ `\s` then anything). -/
def wsHead (s : List Char) : Bool := headIs wsChar s

/-- `^(SELECT|FROM|WHERE|INSERT|UPDATE|DELETE|CREATE|ALTER|DROP)\s` (`/i`). -/
def patSqlStart (t : List Char) : Bool :=
  ["select", "from", "where", "insert", "update", "delete", "create", "alter", "drop"].any
    (fun k => match takeLitCI k.data t with
      | some r => wsHead r
      | none => false)

/-- `\b(System\.debug|Console\.log|print\(|println\()`. -/
def patDebugCall (t : List Char) : Bool :=
  testSomewhere (fun prev s =>
    noWordBefore prev &&
      (startsLit "System.debug".data s || startsLit "Console.log".data s ||
       startsLit "print(".data s || startsLit "println(".data s)) t

/-- `\b(try\s*\{|catch\s*\(|finally\s*\{|if\s*\(|else\s*\{|for\s*\(|while\s*\()`. -/
def patCtrlFlow (t : List Char) : Bool :=
  testSomewhere (fun prev s =>
    noWordBefore prev &&
      ([("try", '{'), ("catch", '('), ("finally", '{'), ("if", '('),
        ("else", '{'), ("for", '('), ("while", '(')].any
        (fun kc => match takeLit kc.1.data s with
          | some r => wsThen kc.2 r
          | none => false))) t

/-- `\w+\s*\(` continuation used by the `new`/`.get`/`.set` pattern;
`\w`, `\s`, `(` are pairwise disjoint, so maximal runs are faithful. -/
def wordThenParen (s : List Char) : Bool :=
  headIs wordChar s && wsThen '(' (s.dropWhile wordChar)

/-- `\b(new\s+\w+\s*\(|\.get\w+\s*\(|\.set\w+\s*\()`.
The `\b` before `\.` demands a word character before the dot. -/
def patNewGetSet (t : List Char) : Bool :=
  testSomewhere (fun prev s =>
    (noWordBefore prev &&
      (match takeLit "new".data s with
        | some r => wsHead r && wordThenParen (dropWs r)
        | none => false)) ||
    (wordBefore prev &&
      ((match takeLit ".get".data s with
        | some r => wordThenParen r
        | none => false) ||
       (match takeLit ".set".data s with
        | some r => wordThenParen r
        | none => false)))) t

/-- `\w+\s*=` with disjoint classes at each juncture. -/
def wordThenEq (s : List Char) : Bool :=
  headIs wordChar s && headIs (· = '=') (dropWs (s.dropWhile wordChar))

/-- `^\s*(Id|String|Integer|Boolean|List<|Map<|Set<|var|let|const)\s+\w+\s*=`. -/
def patDecl (t : List Char) : Bool :=
  let r := dropWs t
  ["Id", "String", "Integer", "Boolean", "List<", "Map<", "Set<", "var", "let", "const"].any
    (fun k => match takeLit k.data r with
      | some r1 => wsHead r1 && wordThenEq (dropWs r1)
      | none => false)

/-- `(__c|__r|__mdt|__e)\b` (Salesforce suffixes; `\b` after a word char). -/
def patSfdcSuffix (t : List Char) : Bool :=
  testSomewhere (fun _ s =>
    ["__c", "__r", "__mdt", "__e"].any
      (fun k => match takeLit k.data s with
        | some r => noWordHead r
        | none => false)) t

/-- `\b(Database\.|Schema\.|Apex|SOQL|SOSL)\b` (`/i`).  After `Database.` and
`Schema.` the trailing `\b` sits after a non-word `.`, so it requires a word
character to follow; after the word alternatives it forbids one. -/
def patPlatform (t : List Char) : Bool :=
  testSomewhere (fun prev s =>
    noWordBefore prev &&
      ((match takeLitCI "database.".data s with
        | some r => headIs wordChar r
        | none => false) ||
       (match takeLitCI "schema.".data s with
        | some r => headIs wordChar r
        | none => false) ||
       (match takeLitCI "apex".data s with
        | some r => noWordHead r
        | none => false) ||
       (match takeLitCI "soql".data s with
        | some r => noWordHead r
        | none => false) ||
       (match takeLitCI "sosl".data s with
        | some r => noWordHead r
        | none => false))) t

/-- Tail of the closing-brace pattern: `\s*[\{]?\s*$`. -/
def braceTail (s : List Char) : Bool :=
  let r := dropWs s
  r.isEmpty || (headIs (· = '{') r && (dropWs r.tail).isEmpty)

/-- `^\s*\}\s*(catch|finally|else)?\s*[\{]?\s*$`. -/
def patCloseBrace (t : List Char) : Bool :=
  match dropWs t with
  | '}' :: r1 =>
    let r2 := dropWs r1
    braceTail r2 ||
      (["catch", "finally", "else"].any (fun k =>
        match takeLit k.data r2 with
        | some r3 => braceTail r3
        | none => false))
  | _ => false

/-- `^\s*\/\/.*$` (line comment; lines contain no newline). -/
def patLineComment (t : List Char) : Bool := startsLit "//".data (dropWs t)

/-- `^\s*\/\*.*\*\/\s*$` (one-line block comment): after the opening `/*`
the remainder, with trailing whitespace stripped, must end in `*/`
(which also rules out an overlap with the opener, as in JS). -/
def patBlockComment (t : List Char) : Bool :=
  match takeLit "/*".data (dropWs t) with
  | some r => startsLit ['/', '*'] (r.reverse.dropWhile wsChar)
  | none => false

/-- `^\s*\*\s` (javadoc-style continuation line). -/
def patJavadoc (t : List Char) : Bool :=
  match dropWs t with
  | '*' :: r => wsHead r
  | _ => false

/-- `=>\s*\{` (arrow function body). -/
def patArrow (t : List Char) : Bool :=
  testSomewhere (fun _ s =>
    match takeLit "=>".data s with
    | some r => wsThen '{' r
    | none => false) t

/-- `\bfunction\s*\(`. -/
def patFunctionKw (t : List Char) : Bool :=
  testSomewhere (fun prev s =>
    noWordBefore prev &&
      (match takeLit "function".data s with
        | some r => wsThen '(' r
        | none => false)) t

/-- `\bclass\s+\w+`. -/
def patClassKw (t : List Char) : Bool :=
  testSomewhere (fun prev s =>
    noWordBefore prev &&
      (match takeLit "class".data s with
        | some r => wsHead r && headIs wordChar (dropWs r)
        | none => false)) t

/-- `\bimport\s+`. -/
def patImportKw (t : List Char) : Bool :=
  testSomewhere (fun prev s =>
    noWordBefore prev &&
      (match takeLit "import".data s with
        | some r => wsHead r
        | none => false)) t

/-- `\bexport\s+(default\s+)?` — the optional group always succeeds. -/
def patExportKw (t : List Char) : Bool :=
  testSomewhere (fun prev s =>
    noWordBefore prev &&
      (match takeLit "export".data s with
        | some r => wsHead r
        | none => false)) t

/-- `^\s*@\w+` (decorator / annotation). -/
def patDecorator (t : List Char) : Bool :=
  match dropWs t with
  | '@' :: r => headIs wordChar r
  | _ => false

/-- `\bSavepoint\b|\brollback\b` (`/i`). -/
def patSavepoint (t : List Char) : Bool :=
  testSomewhere (fun prev s =>
    noWordBefore prev &&
      ((match takeLitCI "savepoint".data s with
        | some r => noWordHead r
        | none => false) ||
       (match takeLitCI "rollback".data s with
        | some r => noWordHead r
        | none => false))) t

/-- `\bDmlException\b|\bException\b` (case sensitive). -/
def patExceptionKw (t : List Char) : Bool :=
  testSomewhere (fun prev s =>
    noWordBefore prev &&
      ((match takeLit "DmlException".data s with
        | some r => noWordHead r
        | none => false) ||
       (match takeLit "Exception".data s with
        | some r => noWordHead r
        | none => false))) t

/-- The `CODE_PATTERNS` table, in source order. -/
def codePatterns : List (List Char → Bool) :=
  [patSqlStart, patDebugCall, patCtrlFlow, patNewGetSet, patDecl,
   patSfdcSuffix, patPlatform, patCloseBrace, patLineComment,
   patBlockComment, patJavadoc, patArrow, patFunctionKw, patClassKw,
   patImportKw, patExportKw, patDecorator, patSavepoint, patExceptionKw]

/-- `CODE_PATTERNS.some(p => p.test(c))` on a raw context line. -/
def anyCodePattern (t : List Char) : Bool := codePatterns.any (fun p => p t)

/-! ### `analyzeCodeProbability` (lines 182-211) -/

/-- `\b\w+\.\w+\(` (method-call shape). -/
def patMethodCall (t : List Char) : Bool :=
  testSomewhere (fun prev s =>
    noWordBefore prev && headIs wordChar s &&
      (match s.dropWhile wordChar with
       | '.' :: r => headIs wordChar r && headIs (· = '(') (r.dropWhile wordChar)
       | _ => false)) t

/-- A JS string-quote character (`'` or `"`). -/
def quoteChar (c : Char) : Bool := c = '"' || c = Char.ofNat 39

/-- `=\s*['"]` (string assignment). -/
def patEqQuote (t : List Char) : Bool :=
  testSomewhere (fun _ s =>
    match s with
    | '=' :: r => headIs quoteChar (dropWs r)
    | _ => false) t

/-- `=\s*\d+` (number assignment); `\d+` just needs one digit. -/
def patEqNum (t : List Char) : Bool :=
  testSomewhere (fun _ s =>
    match s with
    | '=' :: r => headIs Char.isDigit (dropWs r)
    | _ => false) t

/-- `^[\w_]+[,;]?$` (a short code fragment). -/
def patWordFragment (t : List Char) : Bool :=
  headIs wordChar t &&
    (match t.dropWhile wordChar with
     | [] => true
     | [c] => c = ',' || c = ';'
     | _ => false)

/-- `[{}\[\]();]` member characters. -/
def braceChars : List Char := ['{', '}', '[', ']', '(', ')', ';']

/-- The code-probability signal analyzer (`analyzeCodeProbability`,
lines 182-211): 30 per matching `CODE_PATTERNS` entry, indentation,
structural punctuation, method calls, assignments, Salesforce
namespaces, short fragments, and a context bonus; capped at 100. -/
def analyzeCodeProbability (text : String) (context : List String) : Int :=
  let t := (jsTrim text).data
  let raw := text.data
  let score : Int :=
    30 * Int.ofNat (codePatterns.countP (fun p => p t))
    + (if startsLit "    ".data raw || startsLit "\t".data raw then 20 else 0)
    + (if t.any (fun c => braceChars.contains c) then 15 else 0)
    + (if patMethodCall t then 15 else 0)
    + (if patEqQuote t then 10 else 0)
    + (if patEqNum t then 10 else 0)
    + (if containsLit "blng__".data t || containsLit "SBQQ__".data t ||
          containsLit "npsp__".data t then 25 else 0)
    + (if t.length < 30 && patWordFragment t then 15 else 0)
    + (if 2 ≤ (context.filter (fun c => anyCodePattern c.data)).length then 20 else 0)
  min score 100

/-! ### `getHeadingLevel` (lines 245-257) -/

/-- Consume `\d+\.` (digits then a literal dot; the classes are disjoint). -/
def numDot (s : List Char) : Option (List Char) :=
  if headIs Char.isDigit s then
    match s.dropWhile Char.isDigit with
    | '.' :: r => some r
    | _ => none
  else none

/-- `^\d+\.\d+\.\d+\s`. -/
def pat3Level (t : List Char) : Bool :=
  match numDot t with
  | some r1 =>
    match numDot r1 with
    | some r2 => headIs Char.isDigit r2 && wsHead (r2.dropWhile Char.isDigit)
    | none => false
  | none => false

/-- `^\d+\.\d+\s`. -/
def pat2Level (t : List Char) : Bool :=
  match numDot t with
  | some r1 => headIs Char.isDigit r1 && wsHead (r1.dropWhile Char.isDigit)
  | none => false

/-- `^\d+\.\s`. -/
def pat1Level (t : List Char) : Bool :=
  match numDot t with
  | some r => wsHead r
  | none => false

/-- `^[a-z]\)\s` with `/i`. -/
def patLetterParen (t : List Char) : Bool :=
  match t with
  | c :: d :: r => c.isAlpha && d = ')' && wsHead r
  | _ => false

/-- `[ivxIVX]` class. -/
def romanChar (c : Char) : Bool := ['i', 'v', 'x', 'I', 'V', 'X'].contains c

/-- `^[ivxIVX]+\.\s` (maximal run then the dot: the classes are disjoint). -/
def patRoman (t : List Char) : Bool :=
  headIs romanChar t &&
    (match t.dropWhile romanChar with
     | '.' :: r => wsHead r
     | _ => false)

/-- `getHeadingLevel` (lines 245-257): deterministic heading-level
override based on numbering shape; `none` when no pattern applies. -/
def getHeadingLevel (text : String) : Option Nat :=
  let t := (jsTrim text).data
  if pat3Level t then some 3
  else if pat2Level t then some 2
  else if pat1Level t then some 1
  else if patLetterParen t then some 3
  else if patRoman t then some 2
  else none

/-! ### `analyzeHeaderProbability` (lines 135-179) -/

/-- The `HEADER_KEYWORDS` table (lines 70-80), in source order. -/
def HEADER_KEYWORDS : List String :=
  ["Introduction", "Conclusion", "Conclusions", "Summary", "Overview",
   "Background", "Methodology", "Results", "Discussion", "Recommendations",
   "Next Steps", "Appendix", "References", "Glossary", "Final Summary",
   "Development Tools", "Development tools", "Major Focus Areas",
   "Key Findings", "Executive Summary", "Scope", "Objectives", "Purpose",
   "Requirements", "Implementation", "Architecture", "Configuration",
   "Troubleshooting", "Best Practices", "Limitations", "Future Work",
   "Acknowledgments", "Prerequisites", "Dependencies", "Setup", "Installation",
   "Working Model", "Initial Project Phase", "Project Phase"]

/-- The keyword loop's early returns: the first keyword equal to the
line returns 90, the first `keyword:` one returns 85 (in table order,
both checks per keyword before moving on, as in the source loop). -/
def kwEarly (t : List Char) : List String → Option Int
  | [] => none
  | k :: ks =>
    if t = k.data then some 90
    else if startsLit (k.data ++ [':']) t then some 85
    else kwEarly t ks

/-- The keyword loop's accumulating additions (`keyword ` start: +20,
case-insensitive containment: +10), summed over the whole table; in
the source these sums only survive when no early return fired. -/
def kwAdds (t : List Char) : List String → Int
  | [] => 0
  | k :: ks =>
    (if startsLit (k.data ++ [' ']) t then 20 else 0) +
    (if containsLit (k.data.map lowChar) (t.map lowChar) then 10 else 0) +
    kwAdds t ks

/-- `\s+[A-Z]` after a numeric prefix. -/
def wsThenUpper (s : List Char) : Bool := wsHead s && headIs Char.isUpper (dropWs s)

/-- `^\d+\.\d+\.\d+\s+[A-Z]`. -/
def pat3LevelCap (t : List Char) : Bool :=
  match numDot t with
  | some r1 =>
    match numDot r1 with
    | some r2 => headIs Char.isDigit r2 && wsThenUpper (r2.dropWhile Char.isDigit)
    | none => false
  | none => false

/-- `^\d+\.\d+\s+[A-Z]`. -/
def pat2LevelCap (t : List Char) : Bool :=
  match numDot t with
  | some r1 => headIs Char.isDigit r1 && wsThenUpper (r1.dropWhile Char.isDigit)
  | none => false

/-- `^\d+\.\s+[A-Z]`. -/
def pat1LevelCap (t : List Char) : Bool :=
  match numDot t with
  | some r => wsThenUpper r
  | none => false

/-- JS `trimmed.split(/\s+/)` for the already-trimmed argument: the
maximal non-whitespace runs (JS yields `[""]` on the empty string;
leading/trailing whitespace cannot occur after `trim`). -/
def splitWsRuns (t : List Char) : List (List Char) :=
  if t.isEmpty then [[]]
  else
    (t.foldr (fun c acc =>
      if wsChar c then [] :: acc
      else
        match acc with
        | [] => [[c]]
        | w :: ws => (c :: w) :: ws) []).filter (fun w => !w.isEmpty)

/-- `[\w\s]` class. -/
def wordWs (c : Char) : Bool := wordChar c || wsChar c

/-- `^[\w\s]+:\s*[\w\s]+$` ("Label: value" shape; the first colon must
split the line, both sides nonempty and clean of further colons). -/
def patLabelValue (t : List Char) : Bool :=
  headIs wordWs t &&
    (match t.dropWhile wordWs with
     | ':' :: r => !r.isEmpty && r.all wordWs
     | _ => false)

/-- The header-probability signal analyzer (`analyzeHeaderProbability`,
lines 135-179).  `capitalizedWords.length >= words.length * 0.7` is
modelled exactly as `7 * words ≤ 10 * caps` (for the list lengths that
occur, the JS double computation decides the same inequality). -/
def analyzeHeaderProbability (text : String) (prevText : Option String)
    (nextText : Option String) : Int :=
  let t := (jsTrim text).data
  let base : Int :=
    (if t.length < 80 then 15 else 0) + (if t.length < 50 then 10 else 0) +
    (if 150 < t.length then -30 else 0)
  if pat3LevelCap t then 95
  else if pat2LevelCap t then 95
  else if pat1LevelCap t then 95
  else
    match kwEarly t HEADER_KEYWORDS with
    | some v => v
    | none =>
      let s1 := base + kwAdds t HEADER_KEYWORDS
      let words := splitWsRuns t
      let caps := words.filter (fun w => headIs Char.isUpper w)
      let s2 := s1 + (if 2 ≤ words.length ∧ 7 * words.length ≤ 10 * caps.length then 15 else 0)
      let s3 := s2 + (if ¬ lastIs t '.' ∧ ¬ lastIs t ',' then 10 else 0) +
        (if lastIs t '.' then -15 else 0)
      let s4 := s3 + (if (match prevText with
        | none => true
        | some p => (jsTrim p).data.isEmpty) then 10 else 0)
      let s5 := s4 + (match nextText with
        | some nx => if nx ≠ "" ∧ 2 * t.length < nx.length then 10 else 0
        | none => 0)
      let s6 := s5 + (if patLabelValue t ∧ t.length < 60 then 20 else 0)
      let s7 := s6 + (if t = t.map upChar ∧ 3 < t.length ∧ t.length < 50 then 15 else 0)
      min s7 100

/-! ### `LIST_INTRO_PATTERNS` (lines 83-99) -/

/-- `[:\s]` class. -/
def colonWs (c : Char) : Bool := c = ':' || wsChar c

/-- A phrase followed by `[:\s]`, case-insensitively, anywhere. -/
def phraseThenColonWs (phrase : String) (t : List Char) : Bool :=
  testSomewhere (fun _ s =>
    match takeLitCI phrase.data s with
    | some r => headIs colonWs r
    | none => false) t

/-- `include[sd]?[:\s]` with `/i`. -/
def patIncludeIntro (t : List Char) : Bool :=
  testSomewhere (fun _ s =>
    match takeLitCI "include".data s with
    | some r =>
      headIs colonWs r ||
        (match r with
         | c :: r2 => (lowChar c = 's' || lowChar c = 'd') && headIs colonWs r2
         | [] => false)
    | none => false) t

/-- A literal space, then one of the verbs (case-insensitively), then `[:\s]`. -/
def verbSpaceThen (verbs : List String) (r : List Char) : Bool :=
  match r with
  | ' ' :: r1 =>
    verbs.any (fun v =>
      match takeLitCI v.data r1 with
      | some r2 => headIs colonWs r2
      | none => false)
  | _ => false

/-- `stem s? (v1|v2|..)[:\s]` with `/i` (the `steps? (are|..)` family). -/
def stemVerbIntro (stem : String) (verbs : List String) (t : List Char) : Bool :=
  testSomewhere (fun _ s =>
    match takeLitCI stem.data s with
    | some r =>
      verbSpaceThen verbs r ||
        (match r with
         | c :: r2 => lowChar c = 's' && verbSpaceThen verbs r2
         | [] => false)
    | none => false) t

/-- `:[:\s]*$`: some colon followed only by colons/whitespace to the end. -/
def patColonEnd (t : List Char) : Bool :=
  (t.reverse.takeWhile colonWs).contains ':'

/-- The short intro verb set `(are|were|is|was)`. -/
def baseVerbs : List String := ["are", "were", "is", "was"]

/-- The extended intro verb set `(are|were|is|was|included)`. -/
def extVerbs : List String := ["are", "were", "is", "was", "included"]

/-- `LIST_INTRO_PATTERNS.some(p => p.test(text))` (lines 83-99, 294). -/
def isListIntro (text : String) : Bool :=
  let t := text.data
  phraseThenColonWs "the following" t || phraseThenColonWs "as follows" t ||
  patIncludeIntro t || phraseThenColonWs "such as" t ||
  phraseThenColonWs "for example" t || phraseThenColonWs "listed below" t ||
  stemVerbIntro "step" baseVerbs t || stemVerbIntro "challenge" extVerbs t ||
  stemVerbIntro "characteristic" extVerbs t || stemVerbIntro "reason" extVerbs t ||
  stemVerbIntro "benefit" extVerbs t || stemVerbIntro "feature" extVerbs t ||
  stemVerbIntro "requirement" extVerbs t || stemVerbIntro "component" extVerbs t ||
  patColonEnd t

/-! ### `analyzeBulletProbability` (lines 214-242) -/

/-- The marker class `[•\-\*•‣◦⁃∙]` of line 219. -/
def bulletScoreGlyphs : List Char :=
  ['•', '-', '*', '•', '‣', '◦', '⁃', '∙']

/-- `^[•\-\*•‣◦⁃∙]\s`. -/
def patBulletGlyphWs (t : List Char) : Bool :=
  match t with
  | c :: r => bulletScoreGlyphs.contains c && wsHead r
  | [] => false

/-- `^[A-Z][a-z]+suf\s`: an upper-case letter, then the maximal
lower-case run (length at least `minLen`, ending in `suf`), then
whitespace.  Shorter splits of `[a-z]+suf` would abut a lower-case
letter instead of `\s`, so the maximal run is faithful. -/
def lowerRunSuffix (suf : List Char) (minLen : Nat) (t : List Char) : Bool :=
  match t with
  | c :: r =>
    c.isUpper &&
      (let run := r.takeWhile Char.isLower
       (minLen ≤ run.length && List.isSuffixOf suf run) && wsHead (r.drop run.length))
  | [] => false

/-- `^[A-Z][a-z]+ing\s` (gerund start). -/
def patGerund (t : List Char) : Bool := lowerRunSuffix "ing".data 4 t

/-- `^[A-Z][a-z]+ed\s` (past-tense start). -/
def patPastTense (t : List Char) : Bool := lowerRunSuffix "ed".data 3 t

/-- One of the alternatives (case-insensitive), then `\s`. -/
def startAltWsCI (alts : List String) (t : List Char) : Bool :=
  alts.any (fun a =>
    match takeLitCI a.data t with
    | some r => wsHead r
    | none => false)

/-- One of the alternatives (case-sensitive), then `\s`. -/
def startAltWsCS (alts : List String) (t : List Char) : Bool :=
  alts.any (fun a =>
    match takeLit a.data t with
    | some r => wsHead r
    | none => false)

/-- `^(How|What|When|Where|Why|Which)\s` with `/i`. -/
def patQuestionStart (t : List Char) : Bool :=
  startAltWsCI ["how", "what", "when", "where", "why", "which"] t

/-- `^(The|A|An)\s+\w+\s+(was|were|is|are|has|have)\s` (case-sensitive). -/
def patPassive (t : List Char) : Bool :=
  ["The", "A", "An"].any (fun a =>
    match takeLit a.data t with
    | some r =>
      wsHead r &&
        (let r1 := dropWs r
         headIs wordChar r1 &&
           (let r2 := r1.dropWhile wordChar
            wsHead r2 &&
              (["was", "were", "is", "are", "has", "have"].any (fun v =>
                match takeLit v.data (dropWs r2) with
                | some r3 => wsHead r3
                | none => false))))
    | none => false)

/-- `^(No|Missing|Incorrect|Invalid|Duplicate)\s` with `/i`. -/
def patStatusStart (t : List Char) : Bool :=
  startAltWsCI ["no", "missing", "incorrect", "invalid", "duplicate"] t

/-- `^(Enable|Disable|Configure|Set|Get|Create|Delete|Update|Review)\s` with `/i`. -/
def patActionStart (t : List Char) : Bool :=
  startAltWsCI ["enable", "disable", "configure", "set", "get", "create",
    "delete", "update", "review"] t

/-- The `BULLET_CONTENT_PATTERNS` table (lines 125-132), in source order. -/
def bulletContentPatterns : List (List Char → Bool) :=
  [patGerund, patPastTense, patQuestionStart, patPassive, patStatusStart, patActionStart]

/-- `^(The|This|That|These|Those|It)\s` (case-sensitive, line 233). -/
def patTheStart (t : List Char) : Bool :=
  startAltWsCS ["The", "This", "That", "These", "Those", "It"] t

/-- The bullet-probability signal analyzer (`analyzeBulletProbability`,
lines 214-242). -/
def analyzeBulletProbability (text : String) (prevText : Option String)
    (isAfterListIntro : Bool) : Int :=
  let t := (jsTrim text).data
  if patBulletGlyphWs t then 95
  else
    let s : Int :=
      (if isAfterListIntro then 40 else 0)
      + (if t.length < 100 ∧ 10 < t.length then 10 else 0)
      + 15 * Int.ofNat (bulletContentPatterns.countP (fun p => p t))
      + (if patTheStart t ∧ 80 < t.length then -20 else 0)
      + (match prevText with
         | some p => if p ≠ "" ∧ p.length < 100 ∧ t.length < 100 then 10 else 0
         | none => 0)
      + (if ¬ lastIs t '.' ∧ 20 < t.length then 5 else 0)
    min s 100

/-! ### Line matchers of the segmentation scan -/

/-- `text.match(/^(\d+)[.)]\s+(.+)/)`: the declared ordinal and the tail
after the separator.  `.+` captures the whole remainder when nonempty;
when the remainder is empty JS backtracks `\s+` by one character. -/
def numberedMatch (text : String) : Option (Nat × String) :=
  let t := text.data
  let ds := t.takeWhile Char.isDigit
  if ds.isEmpty then none
  else
    match t.drop ds.length with
    | c :: r =>
      if c = '.' || c = ')' then
        let w := r.takeWhile wsChar
        if w.isEmpty then none
        else
          let rest := r.drop w.length
          if !rest.isEmpty then some (digitsToNat ds, String.mk rest)
          else if 2 ≤ w.length then some (digitsToNat ds, String.mk (r.drop (w.length - 1)))
          else none
      else none
    | [] => none

/-- `text.match(/^[glyphs]\s*(.+)/)`: strip the marker and the following
whitespace; when only whitespace follows, JS backtracks `\s*` to leave
one character for `.+`. -/
def markerCapture (glyphs : List Char) (text : String) : Option String :=
  match text.data with
  | c :: r =>
    if glyphs.contains c then
      let rest := dropWs r
      if !rest.isEmpty then some (String.mk rest)
      else if !r.isEmpty then some (String.mk (r.drop (r.length - 1)))
      else none
    else none
  | [] => none

/-- The explicit-bullet marker class `[•\-\*•]` (line 370). -/
def bulletMarkGlyphs : List Char := ['•', '-', '*', '•']

/-- The sub-bullet marker class `[◦‣⁃∙\-]` (line 378). -/
def subBulletGlyphs : List Char := ['◦', '‣', '⁃', '∙', '-']

/-! ### The `ContentItem` data model (lines 61-67)

The source's tagged record with optional fields is modelled as a closed
sum: `heading1/2/3` become `heading` with an explicit level; every
variant carries exactly the fields the source assigns to it. -/

/-- A typed content item emitted by the classifier. -/
inductive ContentItem where
  | heading (level : Nat) (text : String) (confidence : Int)
  | paragraph (text : String) (confidence : Int)
  | bullet (text : String) (confidence : Int)
  | sub_bullet (text : String) (confidence : Int)
  | numbered (text : String) (number : Nat)
  | code_block (lines : List String) (confidence : Int)
deriving DecidableEq, Repr

/-- `item.text` (absent exactly on code blocks). -/
def ContentItem.textOf : ContentItem → Option String
  | .heading _ t _ => some t
  | .paragraph t _ => some t
  | .bullet t _ => some t
  | .sub_bullet t _ => some t
  | .numbered t _ => some t
  | .code_block _ _ => none

/-- `item.type === 'bullet'`. -/
def ContentItem.isBulletItem : ContentItem → Bool
  | .bullet _ _ => true
  | _ => false

/-- The item kinds whose emission resets the numbered-run counter
(code blocks, headings and the default paragraph; bullets and
sub-bullets leave the counter untouched in the source). -/
def ContentItem.resets : ContentItem → Bool
  | .heading _ _ _ => true
  | .paragraph _ _ => true
  | .code_block _ _ => true
  | _ => false

/-! ### The segmentation scan (`extractContent`, lines 279-401) -/

/-- The sub-topic keyword table of line 341. -/
def subTopicKeywords : List String :=
  ["Example", "Screen", "Step", "Phase", "Part", "Section", "Case", "Scenario"]

/-- Rules 7-8: inferred bullet or the default paragraph (lines 386-396). -/
def inferOrParagraph (text : String) (counter : Nat) (headerProb bulletProb : Int) :
    ContentItem × Nat :=
  if 60 ≤ bulletProb ∧ text.length < 120 then (ContentItem.bullet text bulletProb, counter)
  else (ContentItem.paragraph text (100 - headerProb - bulletProb), 0)

/-- Rules 5-7 and the default: explicit bullet, sub-bullet (only after an
emitted bullet), inferred bullet, paragraph (lines 366-396). -/
def classifyBullet (text : String) (prev : Option String) (isAfterListIntro : Bool)
    (counter : Nat) (last? : Option ContentItem) (headerProb : Int) : ContentItem × Nat :=
  let bulletProb := analyzeBulletProbability text prev isAfterListIntro
  match markerCapture bulletMarkGlyphs text with
  | some stripped => (ContentItem.bullet stripped 95, counter)
  | none =>
    match markerCapture subBulletGlyphs text with
    | some stripped =>
      if (match last? with | some it => it.isBulletItem | none => false) then
        (ContentItem.sub_bullet stripped 90, counter)
      else inferOrParagraph text counter headerProb bulletProb
    | none => inferOrParagraph text counter headerProb bulletProb

/-- Rules 2-8 of the scan: everything after code-block detection for the
current line (lines 325-396).  Returns the emitted item and the updated
numbered-run counter; all these rules advance the cursor by one. -/
def classifyRest (text : String) (prev : Option String) (next : Option String)
    (isAfterListIntro : Bool) (counter : Nat) (last? : Option ContentItem) :
    ContentItem × Nat :=
  let headerProb := analyzeHeaderProbability text prev next
  match getHeadingLevel text with
  | some lvl => (ContentItem.heading lvl text 95, 0)
  | none =>
    if 70 ≤ headerProb then
      let l1 : Nat := if subTopicKeywords.any (fun k => text.startsWith k) then 2 else 1
      let level : Nat :=
        if text.length < 30 ∧ (match prev with
            | some p => (p != "") && decide (50 ≤ analyzeHeaderProbability p none (some text))
            | none => false) = true then 3
        else l1
      (ContentItem.heading level text headerProb, 0)
    else
      match numberedMatch text with
      | some nm =>
        if nm.1 = 1 ∨ nm.1 = counter + 1 then (ContentItem.numbered nm.2 nm.1, nm.1)
        else classifyBullet text prev isAfterListIntro counter last? headerProb
      | none => classifyBullet text prev isAfterListIntro counter last? headerProb

/-- `nonEmptyLines.slice(Math.max(0, i - 3), Math.min(n, i + 4))` (line 291). -/
def ctxAt (all : List String) (i : Nat) : List String :=
  (all.drop (i - 3)).take (i + 4 - (i - 3))

/-- The inner code-grouping `while` (lines 303-315), fuel-indexed: keep
consuming while the next line scores ≥40, or is short and the line
after it scores ≥50.  Called with `fuel = all.length`, which is always
enough since `j` grows by one per step. -/
def collectCodeF (all : List String) (ctx : List String) :
    Nat → Nat → List String → Nat × List String
  | 0, j, acc => (j, acc)
  | fuel + 1, j, acc =>
    match all[j]? with
    | some nl =>
      if 40 ≤ analyzeCodeProbability nl ctx ∨
         (nl.length < 30 ∧ (match all[j + 1]? with
            | some n2 => decide (50 ≤ analyzeCodeProbability n2 ctx)
            | none => false) = true) then
        collectCodeF all ctx fuel (j + 1) (acc ++ [nl])
      else (j, acc)
    | none => (j, acc)

/-- The main `while` scan of `extractContent` (lines 284-397),
fuel-indexed; the cursor strictly advances every iteration, so
`fuel = all.length` always suffices (theorem `extractLoopF_fuel`).
State: cursor `i`, numbered-run counter, index of the last
list-introduction line (initially `-10`), and the last emitted item
(all the scan ever reads back from `content`). -/
def extractLoopF (all : List String) :
    Nat → Nat → Nat → Int → Option ContentItem → List ContentItem
  | 0, _, _, _, _ => []
  | fuel + 1, i, counter, lastIntro, last? =>
    match all[i]? with
    | none => []
    | some text =>
      let prev : Option String := if i = 0 then none else all[i - 1]?
      let next : Option String := all[i + 1]?
      let ctx := ctxAt all i
      let lastIntro' : Int := if isListIntro text then (i : Int) else lastIntro
      let isAfter : Bool :=
        decide ((i : Int) - lastIntro' ≤ 5) && decide (lastIntro' < (i : Int))
      let codeProb := analyzeCodeProbability text ctx
      if 60 ≤ codeProb then
        let res := collectCodeF all ctx all.length (i + 1) [text]
        if 2 ≤ res.2.length ∨ 80 ≤ codeProb then
          let item := ContentItem.code_block res.2 codeProb
          item :: extractLoopF all fuel res.1 0 lastIntro' (some item)
        else
          let r := classifyRest text prev next isAfter counter last?
          r.1 :: extractLoopF all fuel (i + 1) r.2 lastIntro' (some r.1)
      else
        let r := classifyRest text prev next isAfter counter last?
        r.1 :: extractLoopF all fuel (i + 1) r.2 lastIntro' (some r.1)

/-! ### `postProcessContent` (lines 435-465) -/

/-- `opt?.type === 'bullet'` for an optional item (lines 452, 446). -/
def optIsBullet : Option ContentItem → Bool
  | some p => p.isBulletItem
  | none => false

/-- Condition (a) of the post-processor: the previously pushed item has
(nonempty) text matching a list-introduction pattern (line 446). -/
def condIntroBefore (prev : Option ContentItem) : Bool :=
  match prev with
  | some p =>
    match p.textOf with
    | some pt => (pt != "") && isListIntro pt
    | none => false
  | none => false

/-- One item of the post-processing pass (lines 443-456): a nonempty
paragraph shorter than 100 characters becomes a bullet when the
previously pushed item's text is a list introduction, or when it sits
between the previously pushed bullet and a raw bullet. -/
def ppOut (prev : Option ContentItem) (item : ContentItem)
    (next? : Option ContentItem) : ContentItem :=
  match item with
  | ContentItem.paragraph t cf =>
    if (t != "") && t.length < 100 &&
        (condIntroBefore prev || (optIsBullet prev && optIsBullet next?))
    then ContentItem.bullet t cf
    else ContentItem.paragraph t cf
  | other => other

/-- The post-processing pass (lines 435-465): walk the emitted sequence
once, threading the previously pushed item (`result[result.length-1]`);
the raw successor is the head of the remaining raw sequence. -/
def postProcessGo : Option ContentItem → List ContentItem → List ContentItem
  | _, [] => []
  | prev, item :: rest =>
    let out := ppOut prev item rest.head?
    out :: postProcessGo (some out) rest

/-- `postProcessContent` (lines 435-465). -/
def postProcessContent (content : List ContentItem) : List ContentItem :=
  postProcessGo none content

/-! ### The pipeline -/

/-- The line normalizer of `extractContent` (lines 276-277): trim every
line and keep the nonempty ones. -/
def nonEmptyLines (rawLines : List String) : List String :=
  (rawLines.map jsTrim).filter (fun l => l ≠ "")

/-- The classification pipeline of `extractContent` (lines 279-401) on
an already-normalized line sequence (the `nonEmptyLines` texts): the
segmentation scan followed by the post-processing pass.  Reading the
`.docx` container (mammoth) is outside the classification core. -/
def extractContent (lines : List String) : List ContentItem :=
  postProcessContent (extractLoopF lines lines.length 0 0 (-10) none)

/-- Re-flatten one item to its member lines (`CodeBlock` expands, every
other item contributes its text). -/
def flattenItem : ContentItem → List String
  | .code_block ls _ => ls
  | .heading _ t _ => [t]
  | .paragraph t _ => [t]
  | .bullet t _ => [t]
  | .sub_bullet t _ => [t]
  | .numbered t _ => [t]

/-- Re-flatten an item sequence to a line sequence. -/
def flattenContent (c : List ContentItem) : List String :=
  (c.map flattenItem).flatten

/-! ### Relations and specifications used by the theorems -/

/-- How a raw item may relate to its post-processed form: unchanged, or
a short paragraph promoted to a bullet with the same text. -/
def ppRel (x y : ContentItem) : Prop :=
  y = x ∨ ∃ t cf, x = ContentItem.paragraph t cf ∧ y = ContentItem.bullet t cf

/-- A step relation between the previously emitted item (`none` at the
start) and each next emitted item, holding along a sequence. -/
def chainFrom (R : Option ContentItem → ContentItem → Prop) :
    Option ContentItem → List ContentItem → Prop
  | _, [] => True
  | p, x :: xs => R p x ∧ chainFrom R (some x) xs

/-- Adjacent-pair law for numbered items: a numbered item directly
after a numbered item carries 1 or the predecessor's number plus one;
directly after a counter-resetting item it carries 1. -/
def RNum (p : Option ContentItem) (x : ContentItem) : Prop :=
  (∀ t1 n1 t2 n2, p = some (ContentItem.numbered t1 n1) → x = ContentItem.numbered t2 n2 →
      n2 = 1 ∨ n2 = n1 + 1) ∧
  (∀ q t2 n2, p = some q → q.resets = true → x = ContentItem.numbered t2 n2 → n2 = 1)

/-- The scan-state invariant backing `RNum`: after a numbered item the
counter equals its number; after a resetting item it is zero. -/
def InvNum (p : Option ContentItem) (c : Nat) : Prop :=
  (∀ t n, p = some (ContentItem.numbered t n) → c = n) ∧
  (∀ q, p = some q → q.resets = true → c = 0)

/-- A sub-bullet is emitted only right after a bullet. -/
def RSub (p : Option ContentItem) (x : ContentItem) : Prop :=
  ∀ t cf, x = ContentItem.sub_bullet t cf → ∃ tb cb, p = some (ContentItem.bullet tb cb)

/-- The adjacent-pair consequence of claim C2's "strictly increasing by
exactly 1" requirement, as a proposition about one output sequence. -/
def strictNumberedRuns (out : List ContentItem) : Prop :=
  ∀ (k : Nat) (t1 t2 : String) (n1 n2 : Nat),
    out[k]? = some (ContentItem.numbered t1 n1) →
    out[k + 1]? = some (ContentItem.numbered t2 n2) → n2 = n1 + 1

/-- One item of the amended-claim specification of the post-processor:
the raw preceding item feeds the list-introduction test (condition (a)),
a separate flag says whether the previously emitted item is a Bullet
(condition (b), first half), and the raw successor feeds its second
half; only a nonempty Paragraph shorter than 100 characters changes. -/
def ppSpecOut (rawPrev : Option ContentItem) (prevEmittedBullet : Bool)
    (item : ContentItem) (next? : Option ContentItem) : ContentItem :=
  match item with
  | ContentItem.paragraph t cf =>
    if (t != "") && t.length < 100 &&
        (condIntroBefore rawPrev || (prevEmittedBullet && optIsBullet next?))
    then ContentItem.bullet t cf
    else ContentItem.paragraph t cf
  | other => other

/-- The amended-claim specification pass: single, not iterated; threads
the raw predecessor and the emitted-bullet flag. -/
def ppSpecGo : Option ContentItem → Bool → List ContentItem → List ContentItem
  | _, _, [] => []
  | rawPrev, pb, item :: rest =>
    let out := ppSpecOut rawPrev pb item rest.head?
    out :: ppSpecGo (some item) out.isBulletItem rest

/-- The amended claim C7's description of the post-processor. -/
def ppSpec (c : List ContentItem) : List ContentItem := ppSpecGo none false c

/-! ## Proof toolkit -/

theorem flattenContent_nil : flattenContent [] = [] := rfl

theorem flattenContent_cons (x : ContentItem) (xs : List ContentItem) :
    flattenContent (x :: xs) = flattenItem x ++ flattenContent xs := rfl

/-- The tail captured by the numbered-item matcher is a suffix of the line. -/
theorem numberedMatch_suffix {text : String} {nm : Nat × String}
    (h : numberedMatch text = some nm) : nm.2.data <:+ text.data := by
  unfold numberedMatch at h
  simp only [] at h
  split at h
  · exact absurd h (by simp)
  · rename_i heq0
    split at h
    · rename_i c r heq
      split at h
      · split at h
        · exact absurd h (by simp)
        · have hsub : ∀ k : Nat, r.drop k <:+ text.data := by
            intro k
            refine (List.drop_suffix k r).trans ?_
            refine (List.suffix_cons c r).trans ?_
            rw [← heq]
            exact List.drop_suffix _ _
          split at h
          · rcases Option.some_injective _ h.symm with rfl
            exact hsub _
          · split at h
            · rcases Option.some_injective _ h.symm with rfl
              exact hsub _
            · exact absurd h (by simp)
      · exact absurd h (by simp)
    · exact absurd h (by simp)

/-- The tail captured by a marker strip is a suffix of the line. -/
theorem markerCapture_suffix {glyphs : List Char} {text : String} {out : String}
    (h : markerCapture glyphs text = some out) : out.data <:+ text.data := by
  unfold markerCapture at h
  simp only [] at h
  split at h
  · rename_i c r heq
    split at h
    · have hsub : ∀ s : List Char, s <:+ r → s <:+ text.data := by
        intro s hs
        refine hs.trans ?_
        rw [heq]
        exact List.suffix_cons c r
      split at h
      · rcases Option.some_injective _ h.symm with rfl
        exact hsub _ (List.dropWhile_suffix wsChar)
      · split at h
        · rcases Option.some_injective _ h.symm with rfl
          exact hsub _ (List.drop_suffix _ r)
        · exact absurd h (by simp)
    · exact absurd h (by simp)
  · exact absurd h (by simp)

/-- A bullet-typed item is literally a `bullet`. -/
theorem isBulletItem_eq {it : ContentItem} (h : it.isBulletItem = true) :
    ∃ t cf, it = ContentItem.bullet t cf := by
  cases it <;> simp [ContentItem.isBulletItem] at h ⊢

/-- Case summary of `classifyBullet` (rules 5-8): the emitted item
re-flattens to a suffix of the line, is never a code block or a
numbered item, resets the counter only as a paragraph, and is a
sub-bullet only when the last emitted item was a bullet. -/
theorem classifyBullet_spec (text : String) (prev : Option String) (ia : Bool)
    (counter : Nat) (last? : Option ContentItem) (hp : Int) :
    (∃ s : String, flattenItem (classifyBullet text prev ia counter last? hp).1 = [s] ∧
        s.data <:+ text.data) ∧
    (∀ ls cf, (classifyBullet text prev ia counter last? hp).1 ≠ ContentItem.code_block ls cf) ∧
    (∀ t2 n2, (classifyBullet text prev ia counter last? hp).1 ≠ ContentItem.numbered t2 n2) ∧
    ((classifyBullet text prev ia counter last? hp).1.resets = true →
        (classifyBullet text prev ia counter last? hp).2 = 0) ∧
    (∀ t2 cf, (classifyBullet text prev ia counter last? hp).1 = ContentItem.sub_bullet t2 cf →
        ∃ tb cb, last? = some (ContentItem.bullet tb cb)) := by
  unfold classifyBullet inferOrParagraph
  simp only []
  split
  · rename_i stripped heq
    exact ⟨⟨stripped, rfl, markerCapture_suffix heq⟩, by simp, by simp,
      by simp [ContentItem.resets], by simp⟩
  · split
    · rename_i stripped heq
      split
      · rename_i hguard
        refine ⟨⟨stripped, rfl, markerCapture_suffix heq⟩, by simp, by simp,
          by simp [ContentItem.resets], ?_⟩
        intro t2 cf _
        match last?, hguard with
        | some it, hguard =>
          rcases isBulletItem_eq hguard with ⟨tb, cb, rfl⟩
          exact ⟨tb, cb, rfl⟩
      · split
        · exact ⟨⟨text, rfl, List.suffix_refl _⟩, by simp, by simp,
            by simp [ContentItem.resets], by simp⟩
        · exact ⟨⟨text, rfl, List.suffix_refl _⟩, by simp, by simp,
            by simp [ContentItem.resets], by simp⟩
    · split
      · exact ⟨⟨text, rfl, List.suffix_refl _⟩, by simp, by simp,
          by simp [ContentItem.resets], by simp⟩
      · exact ⟨⟨text, rfl, List.suffix_refl _⟩, by simp, by simp,
          by simp [ContentItem.resets], by simp⟩

/-- Case summary of `classifyRest` (rules 2-8). -/
theorem classifyRest_spec (text : String) (prev next : Option String) (ia : Bool)
    (counter : Nat) (last? : Option ContentItem) :
    (∃ s : String, flattenItem (classifyRest text prev next ia counter last?).1 = [s] ∧
        s.data <:+ text.data) ∧
    (∀ ls cf, (classifyRest text prev next ia counter last?).1 ≠ ContentItem.code_block ls cf) ∧
    (∀ t2 n2, (classifyRest text prev next ia counter last?).1 = ContentItem.numbered t2 n2 →
        (classifyRest text prev next ia counter last?).2 = n2 ∧ (n2 = 1 ∨ n2 = counter + 1)) ∧
    ((classifyRest text prev next ia counter last?).1.resets = true →
        (classifyRest text prev next ia counter last?).2 = 0) ∧
    (∀ t2 cf, (classifyRest text prev next ia counter last?).1 = ContentItem.sub_bullet t2 cf →
        ∃ tb cb, last? = some (ContentItem.bullet tb cb)) := by
  unfold classifyRest
  simp only []
  split
  · exact ⟨⟨text, rfl, List.suffix_refl _⟩, by simp, by simp,
      by simp [ContentItem.resets], by simp⟩
  · split
    · exact ⟨⟨text, rfl, List.suffix_refl _⟩, by simp, by simp,
        by simp [ContentItem.resets], by simp⟩
    · split
      · rename_i nm heq
        split
        · rename_i hguard
          refine ⟨⟨nm.2, rfl, numberedMatch_suffix heq⟩, by simp, ?_,
            by simp [ContentItem.resets], by simp⟩
          intro t2 n2 hx
          have : nm.1 = n2 := by cases hx; rfl
          subst this
          exact ⟨rfl, hguard⟩
        · have h := classifyBullet_spec text prev ia counter last?
            (analyzeHeaderProbability text prev next)
          exact ⟨h.1, h.2.1, fun t2 n2 hx => absurd hx (h.2.2.1 t2 n2), h.2.2.2.1, h.2.2.2.2⟩
      · have h := classifyBullet_spec text prev ia counter last?
          (analyzeHeaderProbability text prev next)
        exact ⟨h.1, h.2.1, fun t2 n2 hx => absurd hx (h.2.2.1 t2 n2), h.2.2.2.1, h.2.2.2.2⟩

/-- The inner code loop only moves the cursor forward, and its
accumulator grows by exactly the consumed slice of the line array. -/
theorem collectCodeF_spec (all ctx : List String) :
    ∀ (fuel j : Nat) (acc : List String),
      j ≤ (collectCodeF all ctx fuel j acc).1 ∧
      (collectCodeF all ctx fuel j acc).2 =
        acc ++ (all.drop j).take ((collectCodeF all ctx fuel j acc).1 - j) := by
  intro fuel
  induction fuel with
  | zero => intro j acc; exact ⟨le_refl j, by simp [collectCodeF]⟩
  | succ fuel IH =>
    intro j acc
    unfold collectCodeF
    split
    · rename_i nl heq
      split
      · rcases IH (j + 1) (acc ++ [nl]) with ⟨h1, h2⟩
        refine ⟨by omega, ?_⟩
        rw [h2]
        rcases List.getElem?_eq_some.mp heq with ⟨hlt, hnl⟩
        rw [List.drop_eq_getElem_cons hlt, hnl]
        have hstep : (collectCodeF all ctx fuel (j + 1) (acc ++ [nl])).1 - j
            = ((collectCodeF all ctx fuel (j + 1) (acc ++ [nl])).1 - (j + 1)) + 1 := by omega
        rw [hstep, List.take_succ_cons]
        simp
      · exact ⟨le_refl j, by simp⟩
    · exact ⟨le_refl j, by simp⟩

/-- Past the end of the array the scan emits nothing. -/
theorem extractLoopF_stop (all : List String) (fuel i counter : Nat) (l : Int)
    (p : Option ContentItem) (h : all.length ≤ i) :
    extractLoopF all fuel i counter l p = [] := by
  cases fuel with
  | zero => rfl
  | succ fuel =>
    unfold extractLoopF
    simp [List.getElem?_eq_none h]

/-- Any fuel of at least the remaining line count yields the same scan:
the cursor strictly advances each iteration, so the `while` loop of the
source terminates and `fuel = all.length` is always enough. -/
theorem extractLoopF_fuel (all : List String) :
    ∀ (f g i counter : Nat) (l : Int) (p : Option ContentItem),
      all.length - i ≤ f → all.length - i ≤ g →
      extractLoopF all f i counter l p = extractLoopF all g i counter l p := by
  intro f
  induction f with
  | zero =>
    intro g i c l p hf hg
    rw [extractLoopF_stop all 0 i c l p (by omega),
      extractLoopF_stop all g i c l p (by omega)]
  | succ f IH =>
    intro g i c l p hf hg
    by_cases hi : all.length ≤ i
    · rw [extractLoopF_stop _ _ _ _ _ _ hi, extractLoopF_stop _ _ _ _ _ _ hi]
    · push_neg at hi
      cases g with
      | zero => omega
      | succ g =>
        unfold extractLoopF
        simp only []
        cases heq : all[i]? with
        | none => simp
        | some text =>
          simp only [heq]
          have hres := (collectCodeF_spec all (ctxAt all i) all.length (i + 1) [text]).1
          split
          · split
            · rw [IH g _ _ _ _ (by omega) (by omega)]
            · rw [IH g _ _ _ _ (by omega) (by omega)]
          · rw [IH g _ _ _ _ (by omega) (by omega)]

/-- Flattening the scan's output from cursor `i` on reproduces the line
array from position `i`, in order and without loss, except that each
produced line is a suffix of the corresponding input line (bullet and
numbered markers are stripped). -/
theorem extractLoopF_flatten (all : List String) :
    ∀ (fuel i counter : Nat) (l : Int) (p : Option ContentItem),
      all.length - i ≤ fuel →
      List.Forall₂ (fun (o s : String) => o.data <:+ s.data)
        (flattenContent (extractLoopF all fuel i counter l p)) (all.drop i) := by
  intro fuel
  induction fuel with
  | zero =>
    intro i c l p h
    rw [List.drop_eq_nil_of_le (by omega)]
    exact List.Forall₂.nil
  | succ fuel IH =>
    intro i c l p h
    unfold extractLoopF
    simp only []
    cases heq : all[i]? with
    | none =>
      have hge : all.length ≤ i := by
        by_contra hlt
        push_neg at hlt
        rw [List.getElem?_eq_getElem hlt] at heq
        exact absurd heq (by simp)
      rw [List.drop_eq_nil_of_le hge]
      exact List.Forall₂.nil
    | some text =>
      simp only [heq]
      rcases List.getElem?_eq_some.mp heq with ⟨hlt, htext⟩
      have hdropi : all.drop i = text :: all.drop (i + 1) := by
        rw [List.drop_eq_getElem_cons hlt, htext]
      split
      · split
        · -- committed code block
          rcases collectCodeF_spec all (ctxAt all i) all.length (i + 1) [text] with ⟨h1, h2⟩
          rw [flattenContent_cons]
          have hslice : (all.drop i).take
              ((collectCodeF all (ctxAt all i) all.length (i + 1) [text]).1 - i)
              = (collectCodeF all (ctxAt all i) all.length (i + 1) [text]).2 := by
            rw [h2, hdropi]
            have hstep : (collectCodeF all (ctxAt all i) all.length (i + 1) [text]).1 - i
                = ((collectCodeF all (ctxAt all i) all.length (i + 1) [text]).1 - (i + 1)) + 1 := by
              omega
            rw [hstep, List.take_succ_cons]
            rfl
          have hsplit : all.drop i =
              (collectCodeF all (ctxAt all i) all.length (i + 1) [text]).2 ++
                all.drop (collectCodeF all (ctxAt all i) all.length (i + 1) [text]).1 := by
            conv_lhs => rw [← List.take_append_drop
              ((collectCodeF all (ctxAt all i) all.length (i + 1) [text]).1 - i) (all.drop i)]
            rw [hslice, List.drop_drop]
            have harith : i + ((collectCodeF all (ctxAt all i) all.length (i + 1) [text]).1 - i)
                = (collectCodeF all (ctxAt all i) all.length (i + 1) [text]).1 := by omega
            rw [harith]
          rw [hsplit]
          refine List.rel_append (List.forall₂_same.mpr (fun x _ => List.suffix_refl x.data)) ?_
          exact IH _ _ _ _ (by omega)
        · -- single non-committed line falls through to the other rules
          rcases (classifyRest_spec text (if i = 0 then none else all[i - 1]?) all[i + 1]?
            (decide ((i : Int) - (if isListIntro text then (i : Int) else l) ≤ 5) &&
              decide ((if isListIntro text then (i : Int) else l) < (i : Int))) c p).1
            with ⟨sx, hfl, hsuf⟩
          rw [flattenContent_cons, hfl, hdropi]
          exact List.Forall₂.cons hsuf (IH _ _ _ _ (by omega))
      · rcases (classifyRest_spec text (if i = 0 then none else all[i - 1]?) all[i + 1]?
          (decide ((i : Int) - (if isListIntro text then (i : Int) else l) ≤ 5) &&
            decide ((if isListIntro text then (i : Int) else l) < (i : Int))) c p).1
          with ⟨sx, hfl, hsuf⟩
        rw [flattenContent_cons, hfl, hdropi]
        exact List.Forall₂.cons hsuf (IH _ _ _ _ (by omega))

/-! ### Post-processor lemmas -/

/-- The per-item step only keeps or promotes-to-bullet. -/
theorem ppOut_rel (prev : Option ContentItem) (item : ContentItem)
    (next? : Option ContentItem) : ppRel item (ppOut prev item next?) := by
  cases item with
  | paragraph t cf =>
    simp only [ppOut]
    split
    · exact Or.inr ⟨t, cf, rfl, rfl⟩
    · exact Or.inl rfl
  | heading lvl t cf => exact Or.inl rfl
  | bullet t cf => exact Or.inl rfl
  | sub_bullet t cf => exact Or.inl rfl
  | numbered t n => exact Or.inl rfl
  | code_block ls cf => exact Or.inl rfl

/-- One step of the post-processor: one item is pushed, related to the
raw one by `ppRel`, and recursion continues with the pushed item. -/
theorem postProcessGo_step (prev : Option ContentItem) (item : ContentItem)
    (rest : List ContentItem) :
    ∃ out, postProcessGo prev (item :: rest) = out :: postProcessGo (some out) rest ∧
      ppRel item out :=
  ⟨ppOut prev item rest.head?, rfl, ppOut_rel prev item rest.head?⟩

/-- The post-processor relates the raw and the processed sequence
pointwise (in particular it changes no positions and no lengths). -/
theorem postProcessGo_rel :
    ∀ (c : List ContentItem) (prev : Option ContentItem),
      List.Forall₂ ppRel c (postProcessGo prev c) := by
  intro c
  induction c with
  | nil => intro prev; exact List.Forall₂.nil
  | cons item rest IH =>
    intro prev
    rcases postProcessGo_step prev item rest with ⟨out, heq, hrel⟩
    rw [heq]
    exact List.Forall₂.cons hrel (IH (some out))

/-- `ppRel` never changes the flattened lines. -/
theorem ppRel_flattenItem {x y : ContentItem} (h : ppRel x y) :
    flattenItem y = flattenItem x := by
  rcases h with rfl | ⟨t, cf, rfl, rfl⟩ <;> rfl

/-- The post-processor never changes the flattened line sequence. -/
theorem postProcessGo_flatten :
    ∀ (c : List ContentItem) (prev : Option ContentItem),
      flattenContent (postProcessGo prev c) = flattenContent c := by
  intro c
  induction c with
  | nil => intro prev; rfl
  | cons item rest IH =>
    intro prev
    rcases postProcessGo_step prev item rest with ⟨out, heq, hrel⟩
    rw [heq, flattenContent_cons, flattenContent_cons, ppRel_flattenItem hrel, IH]

/-- Extract the pointwise relation at an index, left to right. -/
theorem forall₂_getElem?_left {R : ContentItem → ContentItem → Prop} :
    ∀ {l₁ l₂ : List ContentItem}, List.Forall₂ R l₁ l₂ →
      ∀ (k : Nat) (x : ContentItem), l₁[k]? = some x → ∃ y, l₂[k]? = some y ∧ R x y := by
  intro l₁ l₂ h
  induction h with
  | nil => intro k x hx; simp at hx
  | @cons a b la lb hr hrest IH =>
    intro k x hx
    cases k with
    | zero =>
      rw [List.getElem?_cons_zero] at hx
      cases hx
      exact ⟨b, List.getElem?_cons_zero, hr⟩
    | succ k =>
      rw [List.getElem?_cons_succ] at hx
      rcases IH k x hx with ⟨y, hy, hxy⟩
      exact ⟨y, by rw [List.getElem?_cons_succ]; exact hy, hxy⟩

/-- Extract the pointwise relation at an index, right to left. -/
theorem forall₂_getElem?_right {R : ContentItem → ContentItem → Prop} :
    ∀ {l₁ l₂ : List ContentItem}, List.Forall₂ R l₁ l₂ →
      ∀ (k : Nat) (y : ContentItem), l₂[k]? = some y → ∃ x, l₁[k]? = some x ∧ R x y := by
  intro l₁ l₂ h
  induction h with
  | nil => intro k y hy; simp at hy
  | @cons a b la lb hr hrest IH =>
    intro k y hy
    cases k with
    | zero =>
      rw [List.getElem?_cons_zero] at hy
      cases hy
      exact ⟨a, List.getElem?_cons_zero, hr⟩
    | succ k =>
      rw [List.getElem?_cons_succ] at hy
      rcases IH k y hy with ⟨x, hx, hxy⟩
      exact ⟨x, by rw [List.getElem?_cons_succ]; exact hx, hxy⟩

/-! ### Chain invariants along the emitted sequence -/

/-- `chainFrom` constrains the head. -/
theorem chainFrom_head {R : Option ContentItem → ContentItem → Prop} :
    ∀ {l : List ContentItem} {p : Option ContentItem}, chainFrom R p l →
      ∀ x, l[0]? = some x → R p x := by
  intro l p h x hx
  cases l with
  | nil => simp at hx
  | cons a rest =>
    rw [List.getElem?_cons_zero] at hx
    cases hx
    exact h.1

/-- `chainFrom` constrains every adjacent pair. -/
theorem chainFrom_get {R : Option ContentItem → ContentItem → Prop} :
    ∀ {l : List ContentItem} {p : Option ContentItem}, chainFrom R p l →
      ∀ k x y, l[k]? = some x → l[k + 1]? = some y → R (some x) y := by
  intro l
  induction l with
  | nil => intro p h k x y hx hy; simp at hx
  | cons a rest IH =>
    intro p h k x y hx hy
    cases k with
    | zero =>
      rw [List.getElem?_cons_zero] at hx
      cases hx
      rw [List.getElem?_cons_succ] at hy
      exact chainFrom_head h.2 y hy
    | succ k =>
      rw [List.getElem?_cons_succ] at hx
      rw [List.getElem?_cons_succ] at hy
      exact IH h.2 k x y hx hy

/-- Generic chain lemma for the scan: if `classifyRest` steps preserve
an invariant `Inv` of (last item, counter) and establish `R`, and code
blocks do the same, then `R` holds along the whole emitted sequence. -/
theorem extractLoopF_chain (all : List String)
    {R : Option ContentItem → ContentItem → Prop}
    {Inv : Option ContentItem → Nat → Prop}
    (hstep : ∀ text prev next ia counter last?, Inv last? counter →
        R last? (classifyRest text prev next ia counter last?).1 ∧
        Inv (some (classifyRest text prev next ia counter last?).1)
          (classifyRest text prev next ia counter last?).2)
    (hcode : ∀ p ls cf, R p (ContentItem.code_block ls cf))
    (hcodeInv : ∀ ls cf, Inv (some (ContentItem.code_block ls cf)) 0) :
    ∀ (fuel i counter : Nat) (l : Int) (p : Option ContentItem),
      Inv p counter → chainFrom R p (extractLoopF all fuel i counter l p) := by
  intro fuel
  induction fuel with
  | zero => intro i c l p hInv; exact trivial
  | succ fuel IH =>
    intro i c l p hInv
    unfold extractLoopF
    simp only []
    cases heq : all[i]? with
    | none => exact trivial
    | some text =>
      simp only []
      split
      · split
        · exact ⟨hcode _ _ _, IH _ _ _ _ (hcodeInv _ _)⟩
        · rcases hstep text _ _ _ c p hInv with ⟨h1, h2⟩
          exact ⟨h1, IH _ _ _ _ h2⟩
      · rcases hstep text _ _ _ c p hInv with ⟨h1, h2⟩
        exact ⟨h1, IH _ _ _ _ h2⟩

/-! ### Code-block invariant along the scan -/

/-- Every code block the scan emits is nonempty, and a single-line one
was committed only because its opening line scored at least 80; the
block's confidence is exactly that line's code probability. -/
theorem extractLoopF_codeBlocks (all : List String) :
    ∀ (fuel i counter : Nat) (l : Int) (p : Option ContentItem) (ls : List String) (cf : Int),
      ContentItem.code_block ls cf ∈ extractLoopF all fuel i counter l p →
      ls ≠ [] ∧ (ls.length = 1 →
        ∃ m text, all[m]? = some text ∧ ls = [text] ∧
          cf = analyzeCodeProbability text (ctxAt all m) ∧ 80 ≤ cf) := by
  intro fuel
  induction fuel with
  | zero => intro i c l p ls cf h; simp [extractLoopF] at h
  | succ fuel IH =>
    intro i c l p ls cf h
    unfold extractLoopF at h
    simp only [] at h
    split at h
    · simp at h
    · rename_i text heq
      split at h
      · rename_i hcp
        split at h
        · rename_i hcommit
          rcases List.mem_cons.mp h with heq2 | hmem
          · rcases collectCodeF_spec all (ctxAt all i) all.length (i + 1) [text] with ⟨h1, h2⟩
            have hls : ls = (collectCodeF all (ctxAt all i) all.length (i + 1) [text]).2 := by
              cases heq2; rfl
            have hcf : cf = analyzeCodeProbability text (ctxAt all i) := by
              cases heq2; rfl
            have hcons : ls = text ::
                (all.drop (i + 1)).take
                  ((collectCodeF all (ctxAt all i) all.length (i + 1) [text]).1 - (i + 1)) := by
              rw [hls, h2]; rfl
            refine ⟨by rw [hcons]; exact List.cons_ne_nil _ _, ?_⟩
            intro hlen
            refine ⟨i, text, heq, ?_, hcf, ?_⟩
            · rw [hcons] at hlen ⊢
              have : ((all.drop (i + 1)).take
                  ((collectCodeF all (ctxAt all i) all.length (i + 1) [text]).1 - (i + 1))).length
                  = 0 := by
                simpa using hlen
              rw [List.length_eq_zero.mp this]
            · rcases hcommit with h2le | h80
              · rw [← hls] at h2le
                omega
              · rw [hcf]; exact h80
          · exact IH _ _ _ _ _ _ hmem
        · rcases List.mem_cons.mp h with heq2 | hmem
          · exact absurd heq2 ((classifyRest_spec text _ _ _ c p).2.1 ls cf).symm
          · exact IH _ _ _ _ _ _ hmem
      · rcases List.mem_cons.mp h with heq2 | hmem
        · exact absurd heq2 ((classifyRest_spec text _ _ _ c p).2.1 ls cf).symm
        · exact IH _ _ _ _ _ _ hmem

/-! ### The numbered-run and sub-bullet chain relations -/

/-- The scan satisfies the numbered-run chain law. -/
theorem extractLoopF_chainNum (all : List String) (fuel i counter : Nat) (l : Int)
    (p : Option ContentItem) (hInv : InvNum p counter) :
    chainFrom RNum p (extractLoopF all fuel i counter l p) := by
  refine extractLoopF_chain all ?_ ?_ ?_ fuel i counter l p hInv
  · intro text prev next ia c last? hI
    have hs := classifyRest_spec text prev next ia c last?
    refine ⟨⟨?_, ?_⟩, ?_, ?_⟩
    · intro t1 n1 t2 n2 hp hx
      rcases hs.2.2.1 t2 n2 hx with ⟨_, hdisj⟩
      rcases hdisj with h1 | hsucc
      · exact Or.inl h1
      · rw [hI.1 t1 n1 hp] at hsucc
        exact Or.inr hsucc
    · intro q t2 n2 hp hq hx
      rcases hs.2.2.1 t2 n2 hx with ⟨_, hdisj⟩
      rcases hdisj with h1 | hsucc
      · exact h1
      · rw [hI.2 q hp hq] at hsucc
        exact hsucc
    · intro t n hpx
      exact (hs.2.2.1 t n (Option.some_injective _ hpx)).1
    · intro q hpx hq
      rw [← Option.some_injective _ hpx] at hq
      exact hs.2.2.2.1 hq
  · intro p' ls cf
    unfold RNum
    exact ⟨fun t1 n1 t2 n2 _ hx => ContentItem.noConfusion hx,
      fun q t2 n2 _ _ hx => ContentItem.noConfusion hx⟩
  · intro ls cf
    unfold InvNum
    exact ⟨fun t n hx => ContentItem.noConfusion (Option.some_injective _ hx),
      fun q _ _ => rfl⟩

/-- The scan satisfies the sub-bullet chain law. -/
theorem extractLoopF_chainSub (all : List String) (fuel i counter : Nat) (l : Int)
    (p : Option ContentItem) :
    chainFrom RSub p (extractLoopF all fuel i counter l p) := by
  refine @extractLoopF_chain all RSub (fun _ _ => True) ?_ ?_ ?_ fuel i counter l p trivial
  · intro text prev next ia c last? _
    exact ⟨(classifyRest_spec text prev next ia c last?).2.2.2.2, trivial⟩
  · intro p' ls cf t cf2 hx
    cases hx
  · intro ls cf
    exact trivial

/-! ## Claim theorems -/

/-- Claim C1, counterexample: flattening the output does not reproduce
the input lines verbatim — the explicit bullet line "- a" is emitted
with its marker stripped, so the flattened sequence is ["a"]. -/
theorem c1_counterexample :
    flattenContent (extractContent ["- a"]) ≠ ["- a"] := by decide

/-- Claim C1, amended: for every non-empty input line sequence,
flattening the emitted ContentItem sequence (expanding CodeBlock)
yields exactly one line per input line, in order, with no omissions or
duplicates — but each line only up to marker stripping: every
flattened line is a suffix of its input line (and is the input line
itself except for Bullet/SubBullet/NumberedItem markers). -/
theorem c1_flatten_suffix (lines : List String) (h : lines ≠ []) :
    List.Forall₂ (fun (o s : String) => o.data <:+ s.data)
      (flattenContent (extractContent lines)) lines := by
  unfold extractContent postProcessContent
  rw [postProcessGo_flatten]
  simpa using extractLoopF_flatten lines lines.length 0 0 (-10) none (by omega)

/-- Claim C1, witness. -/
theorem c1_witness :
    (["hello"] : List String) ≠ [] ∧
    List.Forall₂ (fun (o s : String) => o.data <:+ s.data)
      (flattenContent (extractContent ["hello"])) ["hello"] :=
  ⟨by decide, c1_flatten_suffix ["hello"] (by decide)⟩

/-- Claim C2, counterexample: on ["1) a", "1) b"] the classifier emits
two adjacent NumberedItems both numbered 1 — a mid-run restart at 1,
violating "strictly increasing by exactly 1" within a run. -/
theorem c2_counterexample :
    ¬ strictNumberedRuns (extractContent ["1) a", "1) b"]) := by
  intro h
  have h11 := h 0 "a" "b" 1 1 (by decide) (by decide)
  omega

/-- Claim C2, amended: between adjacent output items, a NumberedItem
directly after a NumberedItem carries either 1 (a restart) or the
predecessor's number plus one, and a NumberedItem directly after a
Paragraph, Heading or CodeBlock (the kinds whose emission resets the
counter) always carries 1.  Bullet and SubBullet emissions do not
reset the run counter. -/
theorem c2_numbered_adjacent (lines : List String) (k : Nat) (x : ContentItem)
    (t2 : String) (n2 : Nat)
    (h1 : (extractContent lines)[k]? = some x)
    (h2 : (extractContent lines)[k + 1]? = some (ContentItem.numbered t2 n2)) :
    (∀ t1 n1, x = ContentItem.numbered t1 n1 → n2 = 1 ∨ n2 = n1 + 1) ∧
    (x.resets = true → n2 = 1) := by
  unfold extractContent postProcessContent at h1 h2
  have hrel := postProcessGo_rel (extractLoopF lines lines.length 0 0 (-10) none) none
  rcases forall₂_getElem?_right hrel k x h1 with ⟨x0, hx0, hRx⟩
  rcases forall₂_getElem?_right hrel (k + 1) _ h2 with ⟨y0, hy0, hRy⟩
  have hy0' : y0 = ContentItem.numbered t2 n2 := by
    rcases hRy with hh | ⟨t', cf', _, hb⟩
    · exact hh.symm
    · exact ContentItem.noConfusion hb
  have hchain := extractLoopF_chainNum lines lines.length 0 0 (-10) none
    ⟨fun t n hx => Option.noConfusion hx, fun q hx _ => rfl⟩
  have hpair := chainFrom_get hchain k x0 y0 hx0 hy0
  rw [hy0'] at hpair
  constructor
  · intro t1 n1 hx
    have hx0' : x0 = ContentItem.numbered t1 n1 := by
      rcases hRx with hh | ⟨t', cf', hpara, hb⟩
      · exact hh.symm.trans hx
      · exact ContentItem.noConfusion (hb.symm.trans hx)
    exact hpair.1 t1 n1 t2 n2 (by rw [hx0']) rfl
  · intro hres
    have hx0' : x0 = x := by
      rcases hRx with hh | ⟨t', cf', hpara, hb⟩
      · exact hh.symm
      · rw [hb] at hres
        exact absurd hres (by simp [ContentItem.resets])
    exact hpair.2 x0 t2 n2 rfl (by rw [hx0']; exact hres) rfl

/-- Claim C2, witness. -/
theorem c2_witness :
    (extractContent ["1) alpha", "2) beta"])[0]? = some (ContentItem.numbered "alpha" 1) ∧
    (extractContent ["1) alpha", "2) beta"])[0 + 1]? = some (ContentItem.numbered "beta" 2) ∧
    ((∀ t1 n1, ContentItem.numbered "alpha" 1 = ContentItem.numbered t1 n1 →
        2 = 1 ∨ 2 = n1 + 1) ∧
      ((ContentItem.numbered "alpha" 1).resets = true → 2 = 1)) :=
  ⟨by decide, by decide,
    c2_numbered_adjacent ["1) alpha", "2) beta"] 0 (ContentItem.numbered "alpha" 1) "beta" 2
      (by decide) (by decide)⟩

/-- Claim C5, confirmed: every emitted CodeBlock holds at least one
line, and a single-line CodeBlock exists only when its opening line's
code-probability score (stored as the block's confidence) was at least
80, exactly as the commit rule `codeLines.length >= 2 || codeProb >= 80`
prescribes; otherwise the line is released to the remaining rules. -/
theorem c5_codeblock_minimality (lines : List String) (ls : List String) (cf : Int)
    (h : ContentItem.code_block ls cf ∈ extractContent lines) :
    ls ≠ [] ∧ (ls.length = 1 →
      ∃ (m : Nat) (text : String), lines[m]? = some text ∧ ls = [text] ∧
        cf = analyzeCodeProbability text (ctxAt lines m) ∧ 80 ≤ cf) := by
  unfold extractContent postProcessContent at h
  rcases List.mem_iff_getElem?.mp h with ⟨k, hk⟩
  have hrel := postProcessGo_rel (extractLoopF lines lines.length 0 0 (-10) none) none
  rcases forall₂_getElem?_right hrel k _ hk with ⟨y0, hy0, hRy⟩
  have hy0' : y0 = ContentItem.code_block ls cf := by
    rcases hRy with hh | ⟨t', cf', _, hb⟩
    · exact hh.symm
    · exact ContentItem.noConfusion hb
  have hmem : ContentItem.code_block ls cf ∈ extractLoopF lines lines.length 0 0 (-10) none := by
    rw [← hy0']
    exact List.mem_iff_getElem?.mpr ⟨k, hy0⟩
  exact extractLoopF_codeBlocks lines lines.length 0 0 (-10) none ls cf hmem

/-- Claim C5, witness: a single line scoring 100 is committed alone. -/
theorem c5_witness :
    ContentItem.code_block ["const x = 42; Console.log(x);"] 100 ∈
      extractContent ["const x = 42; Console.log(x);"] ∧
    ((["const x = 42; Console.log(x);"] : List String) ≠ [] ∧
      ((["const x = 42; Console.log(x);"] : List String).length = 1 →
        ∃ (m : Nat) (text : String),
          (["const x = 42; Console.log(x);"] : List String)[m]? = some text ∧
          ["const x = 42; Console.log(x);"] = [text] ∧
          (100 : Int) = analyzeCodeProbability text
            (ctxAt ["const x = 42; Console.log(x);"] m) ∧
          (80 : Int) ≤ 100)) :=
  ⟨by decide, c5_codeblock_minimality ["const x = 42; Console.log(x);"]
    ["const x = 42; Console.log(x);"] 100 (by decide)⟩

/-- Claim C8, confirmed: every SubBullet in the final output is
immediately preceded by a Bullet in the emitted sequence. -/
theorem c8_subbullet_adjacency (lines : List String) (k : Nat) (t : String) (cf : Int)
    (h : (extractContent lines)[k]? = some (ContentItem.sub_bullet t cf)) :
    ∃ (k' : Nat) (tb : String) (cb : Int), k = k' + 1 ∧
      (extractContent lines)[k']? = some (ContentItem.bullet tb cb) := by
  unfold extractContent postProcessContent at h ⊢
  have hrel := postProcessGo_rel (extractLoopF lines lines.length 0 0 (-10) none) none
  rcases forall₂_getElem?_right hrel k _ h with ⟨y0, hy0, hRy⟩
  have hy0' : y0 = ContentItem.sub_bullet t cf := by
    rcases hRy with hh | ⟨t', cf', _, hb⟩
    · exact hh.symm
    · exact ContentItem.noConfusion hb
  have hchain := extractLoopF_chainSub lines lines.length 0 0 (-10) none
  cases k with
  | zero =>
    rcases chainFrom_head hchain y0 hy0 t cf hy0' with ⟨tb, cb, hcontra⟩
    exact Option.noConfusion hcontra
  | succ k' =>
    have hlt : k' + 1 < (extractLoopF lines lines.length 0 0 (-10) none).length := by
      rcases List.getElem?_eq_some.mp hy0 with ⟨hl, _⟩
      exact hl
    have hk2 : k' < (extractLoopF lines lines.length 0 0 (-10) none).length := by omega
    have hx0ex : ∃ x0, (extractLoopF lines lines.length 0 0 (-10) none)[k']? = some x0 :=
      ⟨_, List.getElem?_eq_getElem hk2⟩
    rcases hx0ex with ⟨x0, hx0⟩
    have hpair := chainFrom_get hchain k' x0 y0 hx0 hy0
    rcases hpair t cf hy0' with ⟨tb, cb, hx0b⟩
    have hx0eq := Option.some_injective _ hx0b
    rcases forall₂_getElem?_left hrel k' _ hx0 with ⟨y, hy, hRxy⟩
    have hyb : y = ContentItem.bullet tb cb := by
      rcases hRxy with hh | ⟨t', cf', hpara, _⟩
      · rw [hh, hx0eq]
      · rw [hx0eq] at hpara
        exact ContentItem.noConfusion hpara
    rw [hyb] at hy
    exact ⟨k', tb, cb, rfl, hy⟩

/-- Claim C8, witness. -/
theorem c8_witness :
    (extractContent ["- a", "◦ b"])[1]? = some (ContentItem.sub_bullet "b" 90) ∧
    ∃ (k' : Nat) (tb : String) (cb : Int), 1 = k' + 1 ∧
      (extractContent ["- a", "◦ b"])[k']? = some (ContentItem.bullet tb cb) :=
  ⟨by decide, c8_subbullet_adjacency ["- a", "◦ b"] 1 "b" 90 (by decide)⟩

/-- Claim C9, confirmed: the classification pipeline is total — the
segmentation scan terminates (its cursor strictly advances, so any fuel
of at least the line count computes the same fixed point), and every
line is assigned to exactly one ContentItem: the flattened output has
exactly one line per input line, the default Paragraph rule catching
everything no earlier rule claims. -/
theorem c9_total_coverage (lines : List String) :
    (∀ fuel : Nat, lines.length ≤ fuel →
      extractLoopF lines fuel 0 0 (-10) none =
        extractLoopF lines lines.length 0 0 (-10) none) ∧
    (flattenContent (extractContent lines)).length = lines.length := by
  constructor
  · intro fuel hf
    exact extractLoopF_fuel lines fuel lines.length 0 0 (-10) none (by omega) (by omega)
  · unfold extractContent postProcessContent
    rw [postProcessGo_flatten]
    simpa using (extractLoopF_flatten lines lines.length 0 0 (-10) none (by omega)).length_eq

/-- Claim C9, witness. -/
theorem c9_witness :
    ((["q"] : List String).length ≤ 3 ∧
      extractLoopF ["q"] 3 0 0 (-10) none = extractLoopF ["q"] 1 0 0 (-10) none) ∧
    (flattenContent (extractContent ["q"])).length = (["q"] : List String).length :=
  ⟨⟨by decide, (c9_total_coverage ["q"]).1 3 (by decide)⟩, (c9_total_coverage ["q"]).2⟩

/-! ### Score bounds (claim C6) -/

/-- The keyword loop's early returns are at most 100 (90 or 85). -/
theorem kwEarly_le (t : List Char) : ∀ (ks : List String) (v : Int),
    kwEarly t ks = some v → v ≤ 100 := by
  intro ks
  induction ks with
  | nil => intro v h; simp [kwEarly] at h
  | cons k ks IH =>
    intro v h
    unfold kwEarly at h
    split at h
    · cases h; omega
    · split at h
      · cases h; omega
      · exact IH v h

set_option maxRecDepth 4000 in
/-- Claim C6, counterexample: the header-probability analyzer has no
lower clamp — a 152-character line of `a`s ending in a period scores
-45 (length penalty -30, trailing-period penalty -15). -/
theorem c6_counterexample :
    analyzeHeaderProbability (String.mk (List.replicate 151 'a' ++ ['.']))
      (some "x") none < 0 := by decide

/-- Claim C6, amended: every analyzer clamps its score at 100 from
above; the code-probability score is additionally never negative; the
header- and bullet-probability scores have no lower clamp and can be
negative (see the counterexample). -/
theorem c6_score_bounds :
    (∀ (text : String) (context : List String),
      0 ≤ analyzeCodeProbability text context ∧ analyzeCodeProbability text context ≤ 100) ∧
    (∀ (text : String) (prevText nextText : Option String),
      analyzeHeaderProbability text prevText nextText ≤ 100) ∧
    (∀ (text : String) (prevText : Option String) (ia : Bool),
      analyzeBulletProbability text prevText ia ≤ 100) := by
  refine ⟨?_, ?_, ?_⟩
  · intro text context
    unfold analyzeCodeProbability
    simp only []
    constructor
    · refine le_min ?_ (by omega)
      repeat' refine add_nonneg ?_ ?_
      all_goals first
        | (exact mul_nonneg (by omega) (Int.ofNat_nonneg _))
        | (split <;> omega)
    · exact min_le_right _ _
  · intro text prevText nextText
    unfold analyzeHeaderProbability
    simp only []
    split
    · omega
    · split
      · omega
      · split
        · omega
        · split
          · rename_i v hv
            exact kwEarly_le _ _ v hv
          · exact min_le_right _ _
  · intro text prevText ia
    unfold analyzeBulletProbability
    simp only []
    split
    · omega
    · exact min_le_right _ _

/-! ### The worked example (claim C3) -/

/-- Claim C3, counterexample: on the example input no output item
carries the text "Setup" or "Configure" — the one-level numeric-heading
override keeps the full line as the heading text, so the claimed output
(with the numeric prefixes removed) is impossible whatever the
confidences. -/
theorem c3_counterexample :
    (extractContent ["1. Setup", "Install the tool", "2. Configure",
        "Edit the config file"]).map ContentItem.textOf ≠
      [some "Setup", some "Install the tool", some "Configure",
        some "Edit the config file"] := by decide

/-- Claim C3, amended: the one-level numeric-heading override fires on
"1. Setup" and "2. Configure" (priority over the numbered-list rule),
but the numeric prefix is KEPT in the heading text; the other two lines
are Paragraphs.  The exact output is below. -/
theorem c3_example_output :
    extractContent ["1. Setup", "Install the tool", "2. Configure",
        "Edit the config file"] =
      [ContentItem.heading 1 "1. Setup" 95,
       ContentItem.paragraph "Install the tool" 45,
       ContentItem.heading 1 "2. Configure" 95,
       ContentItem.paragraph "Edit the config file" 45] := by decide

/-! ### The post-processor characterization (claim C7) -/

/-- `ppRel` preserves the text field. -/
theorem ppRel_textOf {x y : ContentItem} (h : ppRel x y) : y.textOf = x.textOf := by
  rcases h with rfl | ⟨t, cf, rfl, rfl⟩ <;> rfl

/-- The code's pass (threading the processed predecessor) equals the
specification pass (threading the raw predecessor and a bullet flag):
the processed predecessor differs from the raw one at most by a
paragraph-to-bullet promotion, which keeps the text that condition (a)
tests, and the flag captures exactly its bullet-ness. -/
theorem postProcessGo_eq_ppSpecGo :
    ∀ (c : List ContentItem) (po rp : Option ContentItem) (pb : Bool),
      (match po, rp with
       | none, none => pb = false
       | some x, some y => x.textOf = y.textOf ∧ x.isBulletItem = pb
       | _, _ => False) →
      postProcessGo po c = ppSpecGo rp pb c := by
  intro c
  induction c with
  | nil =>
    intro po rp pb hrel
    rfl
  | cons item rest IH =>
    intro po rp pb hrel
    have hcondA : condIntroBefore po = condIntroBefore rp := by
      match po, rp, hrel with
      | none, none, _ => rfl
      | some x, some y, ⟨ht, hb⟩ => simp [condIntroBefore, ht]
    have hcondB : optIsBullet po = pb := by
      match po, rp, hrel with
      | none, none, h => exact h.symm
      | some x, some y, ⟨ht, hb⟩ => exact hb
    have hout : ppOut po item rest.head? = ppSpecOut rp pb item rest.head? := by
      cases item with
      | paragraph t cf => simp only [ppOut, ppSpecOut, hcondA, hcondB]
      | heading lvl t cf => rfl
      | bullet t cf => rfl
      | sub_bullet t cf => rfl
      | numbered t n => rfl
      | code_block ls cf => rfl
    show ppOut po item rest.head? :: postProcessGo (some (ppOut po item rest.head?)) rest =
      ppSpecOut rp pb item rest.head? ::
        ppSpecGo (some item) (ppSpecOut rp pb item rest.head?).isBulletItem rest
    rw [hout]
    congr 1
    apply IH
    refine ⟨?_, ?_⟩
    · rw [← hout]
      exact ppRel_textOf (ppOut_rel po item rest.head?)
    · rw [← hout]

/-- Claim C7, counterexample: the reclassification demands text shorter
than 100 characters, a condition the claim omits — a 100-character
paragraph right after a list-introduction line stays a Paragraph even
though condition (a) holds. -/
theorem c7_counterexample :
    postProcessContent [ContentItem.paragraph "The steps are:" 0,
        ContentItem.paragraph (String.mk (List.replicate 100 'b')) 0] =
      [ContentItem.paragraph "The steps are:" 0,
        ContentItem.paragraph (String.mk (List.replicate 100 'b')) 0] ∧
    isListIntro "The steps are:" = true :=
  ⟨by decide, by decide⟩

/-- Claim C7, amended: the post-processing pass runs exactly once (it
is not iterated to a fixpoint), changes no item other than Paragraphs
(headings and code blocks are never re-opened), and reclassifies a
Paragraph to Bullet exactly when its text is nonempty AND SHORTER THAN
100 CHARACTERS and (a) the immediately preceding raw item's text
matches a list-introduction pattern, or (b) the immediately preceding
emitted item is a Bullet and the immediately following raw item is a
Bullet.  `ppSpec` is that description verbatim, and the code's pass
equals it. -/
theorem c7_postprocess_spec (content : List ContentItem) :
    postProcessContent content = ppSpec content :=
  postProcessGo_eq_ppSpecGo content none none false rfl

/-! ### Heading-override facts (claims C4 and C10) -/

/-- Split a boolean conjunction hypothesis. -/
theorem bool_and_split {a b : Bool} (h : (a && b) = true) : a = true ∧ b = true := by
  simp at h
  exact h

/-- Assemble a boolean conjunction. -/
theorem bool_and_make {a b : Bool} (ha : a = true) (hb : b = true) : (a && b) = true := by
  simp [ha, hb]

/-- JS whitespace is never a digit. -/
theorem wsChar_not_digit {c : Char} (hws : wsChar c = true) : c.isDigit = false := by
  simp [wsChar] at hws
  rcases hws with ((((((rfl | rfl) | rfl) | rfl) | rfl) | rfl) | rfl) <;> decide

/-- `\s+[A-Z]` implies the plain `\s` continuation. -/
theorem wsThenUpper_wsHead {s : List Char} (h : wsThenUpper s = true) : wsHead s = true :=
  (bool_and_split h).1

/-- The capitalized three-level pattern implies the override's one. -/
theorem pat3LevelCap_imp {t : List Char} (h : pat3LevelCap t = true) : pat3Level t = true := by
  unfold pat3LevelCap at h
  unfold pat3Level
  cases hnd : numDot t with
  | none => simp only [hnd] at h; exact Bool.noConfusion h
  | some r1 =>
    simp only [hnd] at h ⊢
    cases hnd2 : numDot r1 with
    | none => simp only [hnd2] at h; exact Bool.noConfusion h
    | some r2 =>
      simp only [hnd2] at h ⊢
      rcases bool_and_split h with ⟨hd, hup⟩
      exact bool_and_make hd (wsThenUpper_wsHead hup)

/-- The capitalized two-level pattern implies the override's one. -/
theorem pat2LevelCap_imp {t : List Char} (h : pat2LevelCap t = true) : pat2Level t = true := by
  unfold pat2LevelCap at h
  unfold pat2Level
  cases hnd : numDot t with
  | none => simp only [hnd] at h; exact Bool.noConfusion h
  | some r1 =>
    simp only [hnd] at h ⊢
    rcases bool_and_split h with ⟨hd, hup⟩
    exact bool_and_make hd (wsThenUpper_wsHead hup)

/-- The capitalized one-level pattern implies the override's one. -/
theorem pat1LevelCap_imp {t : List Char} (h : pat1LevelCap t = true) : pat1Level t = true := by
  unfold pat1LevelCap at h
  unfold pat1Level
  cases hnd : numDot t with
  | none => simp only [hnd] at h; exact Bool.noConfusion h
  | some r =>
    simp only [hnd] at h ⊢
    exact wsThenUpper_wsHead h

/-- A two-level line is not three-level: after the second number the
two-level pattern demands whitespace where the three-level one demands
a dot. -/
theorem pat2LevelCap_not3 {t : List Char} (h : pat2LevelCap t = true) :
    pat3Level t = false := by
  unfold pat2LevelCap at h
  unfold pat3Level
  cases hnd : numDot t with
  | none => rfl
  | some r1 =>
    simp only [hnd] at h ⊢
    rcases bool_and_split h with ⟨hd, hup⟩
    cases hnd2 : numDot r1 with
    | none => rfl
    | some r2 =>
      exfalso
      unfold numDot at hnd2
      rw [if_pos hd] at hnd2
      cases hdw : List.dropWhile Char.isDigit r1 with
      | nil =>
        rw [hdw] at hnd2
        exact Option.noConfusion hnd2
      | cons c rest =>
        rw [hdw] at hnd2 hup
        split at hnd2
        · rename_i r' heq'
          cases heq'
          simp [wsThenUpper, wsHead, headIs, wsChar] at hup
        · exact Option.noConfusion hnd2

/-- A one-level line is neither two- nor three-level: after the first
number it has whitespace where those patterns demand another digit. -/
theorem pat1LevelCap_not23 {t : List Char} (h : pat1LevelCap t = true) :
    pat3Level t = false ∧ pat2Level t = false := by
  unfold pat1LevelCap at h
  unfold pat3Level pat2Level
  cases hnd : numDot t with
  | none => exact ⟨rfl, rfl⟩
  | some r =>
    simp only [hnd] at h ⊢
    have hdig : headIs Char.isDigit r = false := by
      cases r with
      | nil => rfl
      | cons c rest =>
        have hws : wsChar c = true := wsThenUpper_wsHead h
        exact wsChar_not_digit hws
    constructor
    · cases hnd2 : numDot r with
      | none => rfl
      | some r2 =>
        exfalso
        unfold numDot at hnd2
        rw [hdig] at hnd2
        exact Option.noConfusion hnd2
    · rw [hdig]
      rfl

/-- A line matching the capitalized three-level pattern is overridden
to heading level 3. -/
theorem getHeadingLevel_cap3 {text : String}
    (h : pat3LevelCap (jsTrim text).data = true) : getHeadingLevel text = some 3 := by
  unfold getHeadingLevel
  simp only [pat3LevelCap_imp h, if_true]

/-- A line matching the capitalized two-level pattern is overridden to
heading level 2. -/
theorem getHeadingLevel_cap2 {text : String}
    (h : pat2LevelCap (jsTrim text).data = true) : getHeadingLevel text = some 2 := by
  unfold getHeadingLevel
  simp only [pat2LevelCap_not3 h, pat2LevelCap_imp h, if_true, Bool.false_eq_true, if_false]

/-- A line matching the capitalized one-level pattern is overridden to
heading level 1. -/
theorem getHeadingLevel_cap1 {text : String}
    (h : pat1LevelCap (jsTrim text).data = true) : getHeadingLevel text = some 1 := by
  unfold getHeadingLevel
  simp only [(pat1LevelCap_not23 h).1, (pat1LevelCap_not23 h).2, pat1LevelCap_imp h,
    if_true, Bool.false_eq_true, if_false]

/-- Claim C4, counterexample: the heading-level override does NOT
short-circuit code-block detection — this line matches the three-level
numeric-prefix-with-capital pattern, yet (its code probability being
80, at least 60) it is consumed into a CodeBlock instead of being
emitted as a level-3 Heading. -/
theorem c4_counterexample :
    pat3LevelCap (jsTrim "1.2.3 Console.log(x); System.debug();").data = true ∧
    extractContent ["1.2.3 Console.log(x); System.debug();", "Console.log(y);"] =
      [ContentItem.code_block
        ["1.2.3 Console.log(x); System.debug();", "Console.log(y);"] 80] :=
  ⟨by decide, by decide⟩

/-- Claim C4, amended: once code-block detection has declined the line
(code probability below 60), the numeric-prefix override fires
unconditionally, before the probabilistic header score and all later
rules: the line is emitted as a Heading of the overridden level — 3
for a three-level prefix, 2 for a two-level prefix, 1 for a one-level
prefix — with the full line as text; the override does NOT precede
code-block detection. -/
theorem c4_heading_override (all : List String) (fuel i counter : Nat) (lastIntro : Int)
    (p : Option ContentItem) (text : String) (lvl : Nat)
    (hget : all[i]? = some text)
    (hlvl : getHeadingLevel text = some lvl)
    (hcode : analyzeCodeProbability text (ctxAt all i) < 60) :
    (extractLoopF all (fuel + 1) i counter lastIntro p =
      ContentItem.heading lvl text 95 ::
        extractLoopF all fuel (i + 1) 0 (if isListIntro text then (i : Int) else lastIntro)
          (some (ContentItem.heading lvl text 95))) ∧
    (pat3LevelCap (jsTrim text).data = true → lvl = 3) ∧
    (pat2LevelCap (jsTrim text).data = true → lvl = 2) ∧
    (pat1LevelCap (jsTrim text).data = true → lvl = 1) := by
  refine ⟨?_, ?_, ?_, ?_⟩
  · conv_lhs => rw [extractLoopF.eq_def]
    simp only [hget]
    rw [if_neg (by omega)]
    unfold classifyRest
    simp only [hlvl]
  · intro hcap
    have h3 := getHeadingLevel_cap3 hcap
    rw [hlvl] at h3
    exact (Option.some_injective _ h3)
  · intro hcap
    have h2 := getHeadingLevel_cap2 hcap
    rw [hlvl] at h2
    exact (Option.some_injective _ h2)
  · intro hcap
    have h1 := getHeadingLevel_cap1 hcap
    rw [hlvl] at h1
    exact (Option.some_injective _ h1)

/-- Claim C4, witness. -/
theorem c4_witness :
    analyzeCodeProbability "1.2.3 Setup" (ctxAt ["1.2.3 Setup"] 0) < 60 ∧
    getHeadingLevel "1.2.3 Setup" = some 3 ∧
    extractLoopF ["1.2.3 Setup"] 1 0 0 (-10) none =
      [ContentItem.heading 3 "1.2.3 Setup" 95] := by
  refine ⟨by decide, by decide, ?_⟩
  have h := (c4_heading_override ["1.2.3 Setup"] 0 0 0 (-10) none "1.2.3 Setup" 3
    (by decide) (by decide) (by decide)).1
  exact h.trans (by decide)

/-! ### Hyphen lines (claim C10) -/

/-- A (trimmed) line starting with a hyphen never matches the
heading-level override: every branch wants a digit, a letter-paren or
a roman numeral first. -/
theorem getHeadingLevel_hyphen {text : String} {r : List Char}
    (htrim : jsTrim text = text) (h : text.data = '-' :: r) :
    getHeadingLevel text = none := by
  unfold getHeadingLevel
  rw [htrim, h]
  have hd : Char.isDigit '-' = false := by decide
  have ha : Char.isAlpha '-' = false := by decide
  have hro : romanChar '-' = false := by decide
  cases r with
  | nil =>
    simp [pat3Level, pat2Level, pat1Level, patLetterParen, patRoman, numDot, headIs,
      hd, ha, hro]
  | cons d r2 =>
    simp [pat3Level, pat2Level, pat1Level, patLetterParen, patRoman, numDot, headIs,
      hd, ha, hro]

/-- A line starting with a hyphen never matches the numbered-item
pattern (it wants leading digits). -/
theorem numberedMatch_hyphen {text : String} {r : List Char} (h : text.data = '-' :: r) :
    numberedMatch text = none := by
  unfold numberedMatch
  rw [h]
  have hd : Char.isDigit '-' = false := by decide
  simp [List.takeWhile_cons, hd]

/-- A line starting with a hyphen followed by text matches the
explicit-bullet marker pattern, capturing the text after the marker
and the whitespace run. -/
theorem markerCapture_hyphen {text : String} {r : List Char} (h : text.data = '-' :: r)
    (hr : dropWs r ≠ []) :
    markerCapture bulletMarkGlyphs text = some (String.mk (dropWs r)) := by
  unfold markerCapture
  rw [h]
  have hc : bulletMarkGlyphs.contains '-' = true := by decide
  have hre : (dropWs r).isEmpty = false := by
    cases hdw : dropWs r with
    | nil => exact absurd hdw hr
    | cons a b => rfl
  simp [hc, hre]
  decide

/-- Claim C10, confirmed: a line whose trimmed text starts with a
hyphen followed by text, and which reaches the bullet rules (code-block
detection declined it and the probabilistic header threshold was not
met; the heading override and the numbered rule cannot match a hyphen
line), is emitted as a Bullet with the marker stripped — never as a
SubBullet, whatever the previously emitted item is: the hyphen belongs
to both the explicit-bullet and the sub-bullet glyph sets, and the
explicit-bullet rule is checked first, so the sub-bullet rule is
unreachable for it.  The numbered-run counter passes through
unchanged. -/
theorem c10_hyphen_bullet (all : List String) (fuel i counter : Nat) (lastIntro : Int)
    (p : Option ContentItem) (text : String) (r : List Char)
    (hget : all[i]? = some text)
    (htrim : jsTrim text = text)
    (hhy : text.data = '-' :: r)
    (hrest : dropWs r ≠ [])
    (hcode : analyzeCodeProbability text (ctxAt all i) < 60)
    (hhp : analyzeHeaderProbability text (if i = 0 then none else all[i - 1]?)
      all[i + 1]? < 70) :
    extractLoopF all (fuel + 1) i counter lastIntro p =
      ContentItem.bullet (String.mk (dropWs r)) 95 ::
        extractLoopF all fuel (i + 1) counter
          (if isListIntro text then (i : Int) else lastIntro)
          (some (ContentItem.bullet (String.mk (dropWs r)) 95)) := by
  conv_lhs => rw [extractLoopF.eq_def]
  simp only [hget]
  rw [if_neg (by omega)]
  unfold classifyRest
  simp only [getHeadingLevel_hyphen htrim hhy]
  rw [if_neg (by omega)]
  simp only [numberedMatch_hyphen hhy]
  unfold classifyBullet
  simp only [markerCapture_hyphen hhy hrest]

/-- Claim C10, witness. -/
theorem c10_witness :
    analyzeCodeProbability "- apple" (ctxAt ["- apple"] 0) < 60 ∧
    analyzeHeaderProbability "- apple" none none < 70 ∧
    extractLoopF ["- apple"] 1 0 0 (-10) none = [ContentItem.bullet "apple" 95] := by
  refine ⟨by decide, by decide, ?_⟩
  have h := c10_hyphen_bullet ["- apple"] 0 0 0 (-10) none "- apple" (' ' :: "apple".data)
    (by decide) (by decide) (by decide) (by decide) (by decide) (by decide)
  exact h.trans (by decide)

end TechTorch
